import Mathlib

/-!
A shallow embedding of the graph view-model synchronization logic of the
BrainBuilder client (src/app/dashboard/graphs/[id]/graph.tsx), together with
proofs about its behavior.

The source is a React component.  We embed it as pure state-transformation
functions:

* Local view state (the React `nodes` / `edges` / `selectedNode` state) is a
  `GraphState`.
* The remote Supabase tables `nodes` and `edges` are a `Remote` value.
* Asynchronous remote calls that can fail are given explicit success/identity
  oracles (a failed insert returns `none`, a failed delete/update leaves the
  store untouched) so that every environment behavior is a parameter of the
  embedding.
* JSON payloads (the `data` column and the renderer-facing `data` object) are
  association lists of key / value pairs (`JObj`), with JavaScript object
  spread, property read, and truthiness modelled explicitly.

React `setX(value)` calls use values captured at callback entry and
`setX(fn)` calls use the current value; the embedding threads state in the
exact order the source executes its statements, which reproduces both.
-/

/-- JSON-like values appearing in node payloads.  `jsUndefined` models JavaScript
`undefined` (reading an absent key also yields `undefined`); `raw` stands for
composite JSON values (arrays / objects, e.g. the `conditions` list of a
conditional node), which the embedded code never inspects and which are always
truthy in JavaScript. -/
inductive JVal where
  | str (s : String)
  | jsUndefined
  | raw (n : Nat)
  deriving DecidableEq, Repr

/-- JavaScript truthiness of a `JVal`. -/
def JVal.truthy : JVal → Bool
  | .str s => !s.isEmpty
  | .jsUndefined => false
  | .raw _ => true

/-- A JSON object, as an association list of key / value pairs. -/
abbrev JObj := List (String × JVal)

/-- JavaScript property read `o[k]`: an absent key reads as `undefined`. -/
def JObj.get (o : JObj) (k : String) : JVal :=
  match o.find? (fun p => p.1 = k) with
  | some p => p.2
  | none => .jsUndefined

/-- Whether the object has the key at all (even with an `undefined` value). -/
def JObj.hasKey (o : JObj) (k : String) : Bool :=
  o.any (fun p => p.1 = k)

/-- JavaScript object spread of `a` then `b` (keys of `b` override keys of
`a`, including keys of `b` holding `undefined`). -/
def JObj.merge (a b : JObj) : JObj :=
  a.map (fun p => if b.hasKey p.1 then (p.1, b.get p.1) else p) ++
    b.filter (fun p => !(a.hasKey p.1))

/-- A 2D canvas position. -/
structure Position where
  x : Int
  y : Int
  deriving DecidableEq, Repr

/-- A renderer-facing node (the xyflow `Node` objects held in the React
`nodes` state): id, position, type tag and `data` payload.  The `type` field
is an arbitrary JavaScript value in the source (it is copied from the stored
payload on load), so it is a `JVal`.  Function-valued payload entries
(`onPromptChange` etc.) are UI callbacks and are not part of the data model. -/
structure FlowNode where
  id : String
  position : Position
  type : JVal
  data : JObj
  deriving DecidableEq, Repr

/-- A renderer-facing edge (the xyflow `Edge` objects held in the React
`edges` state).  `sourceHandle` is absent (`none`) unless the edge was built
with a truthy handle string. -/
structure FlowEdge where
  id : String
  source : String
  target : String
  sourceHandle : Option String
  deriving DecidableEq, Repr

/-- The local view state of one graph view instance: the `nodes`, `edges` and
`selectedNode` React state. -/
structure GraphState where
  nodes : List FlowNode
  edges : List FlowEdge
  selected : Option FlowNode
  deriving DecidableEq, Repr

/-- A row of the remote `nodes` table. -/
structure RemoteNodeRow where
  id : String
  graph_id : String
  label : String
  position_x : Int
  position_y : Int
  data : JObj
  deriving DecidableEq, Repr

/-- A row of the remote `edges` table (there is no handle column; handles are
reconstructed from the mirrored payload fields on load). -/
structure RemoteEdgeRow where
  id : String
  source_node_id : String
  target_node_id : String
  deriving DecidableEq, Repr

/-- The remote store (the two mutated Supabase tables). -/
structure Remote where
  nodes : List RemoteNodeRow
  edges : List RemoteEdgeRow
  deriving DecidableEq, Repr

/-- JavaScript truthiness of an optional string (`undefined` and the empty
string are falsy). -/
def jsTruthy : Option String → Bool
  | none => false
  | some s => !s.isEmpty

/-- The `h || undefined` normalization the source applies to edge handles:
a falsy handle becomes `undefined`. -/
def normHandle (h : Option String) : Option String :=
  if jsTruthy h then h else none

/-- `deleteEdge` (graph.tsx:228): delete the edge row remotely; returns
whether the delete succeeded.  `ok` is the environment oracle for the remote
call (a failed call leaves the store untouched and is merely logged). -/
def deleteEdge (r : Remote) (edgeId : String) (ok : Bool) : Remote × Bool :=
  if ok then ({r with edges := r.edges.filter (fun e => e.id ≠ edgeId)}, true)
  else (r, false)

/-- `createEdge` (graph.tsx:195): insert an edge row remotely; on success the
store assigns the fresh id `ins` and the function returns the local edge
object, carrying `sourceHandle` only when the handle is truthy.  `ins = none`
is a failed insert (the function returns `null`). -/
def createEdge (r : Remote) (sourceId targetId : String) (sourceHandle : Option String)
    (ins : Option String) : Remote × Option FlowEdge :=
  match ins with
  | none => (r, none)
  | some newId =>
    ({r with edges := r.edges ++ [⟨newId, sourceId, targetId⟩]},
     some { id := newId, source := sourceId, target := targetId,
            sourceHandle := if jsTruthy sourceHandle then sourceHandle else none })

/-- The functional `setNodes` update at the start of `updateNodeData`
(graph.tsx:159): merge `newData` into the payload of the node with the given
id. -/
def localMergeNodes (nodes : List FlowNode) (nodeId : String) (newData : JObj) :
    List FlowNode :=
  nodes.map (fun n => if n.id = nodeId then {n with data := n.data.merge newData} else n)

/-- `updateNodeData` (graph.tsx:157): optimistically merge `newData` into the
local node, then fetch the node's current remote payload, merge `newData`
into it and write the merged payload back.  `fetchOk` / `updOk` are the
environment oracles for the two remote calls; the fetch also fails when the
row is absent (`.single()` errors on zero rows).  Returns whether the remote
round-trip succeeded. -/
def updateNodeData (st : GraphState) (r : Remote) (nodeId : String) (newData : JObj)
    (fetchOk updOk : Bool) : GraphState × Remote × Bool :=
  let st1 : GraphState := {st with nodes := localMergeNodes st.nodes nodeId newData}
  match (if fetchOk then r.nodes.find? (fun n => n.id = nodeId) else none) with
  | none => (st1, r, false)
  | some row =>
    let mergedData := row.data.merge newData
    if updOk then
      (st1,
       {r with nodes := r.nodes.map (fun n =>
          if n.id = nodeId then {n with data := mergedData} else n)},
       true)
    else (st1, r, false)

/-- `updateNodeRelationships` (graph.tsx:245): write the mirrored child
reference of the source node (`childId` for `analysis`, `trueChildId` /
`falseChildId` for `conditional`, keyed by the handle) to the target id, or
to `undefined` when removing. -/
def updateNodeRelationships (st : GraphState) (r : Remote) (sourceNode targetNode : FlowNode)
    (sourceHandle : Option String) (isRemove : Bool) (fetchOk updOk : Bool) :
    GraphState × Remote :=
  if sourceNode.type = JVal.str "analysis" then
    let res := updateNodeData st r sourceNode.id
      [("childId", if isRemove then JVal.jsUndefined else JVal.str targetNode.id)] fetchOk updOk
    (res.1, res.2.1)
  else if sourceNode.type = JVal.str "conditional" then
    if sourceHandle = some "true" then
      let res := updateNodeData st r sourceNode.id
        [("trueChildId", if isRemove then JVal.jsUndefined else JVal.str targetNode.id)] fetchOk updOk
      (res.1, res.2.1)
    else if sourceHandle = some "false" then
      let res := updateNodeData st r sourceNode.id
        [("falseChildId", if isRemove then JVal.jsUndefined else JVal.str targetNode.id)] fetchOk updOk
      (res.1, res.2.1)
    else (st, r)
  else (st, r)

/-- A proposed connection, as handed to `onConnect` by the canvas. -/
structure ConnectParams where
  source : String
  target : String
  sourceHandle : Option String
  deriving DecidableEq, Repr

/-- Environment oracle for one `onConnect` call: outcomes of the remote edge
deletes, of the edge insert (`none` = failure, `some id` = success with the
store-assigned id), and of the two remote calls inside `updateNodeData`. -/
structure ConnectOracle where
  delOks : List Bool
  insEdge : Option String
  fetchOk : Bool
  updOk : Bool
  deriving DecidableEq, Repr

/-- The remote deletion loops inside `onConnect` (graph.tsx:587, 599):
delete each listed edge remotely, one environment outcome per edge (results
are not inspected by the source). -/
def deleteEdgesRemote (r : Remote) : List FlowEdge → List Bool → Remote
  | [], _ => r
  | e :: es, oks => deleteEdgesRemote (deleteEdge r e.id (oks.headD true)).1 es oks.tail

/-- `onConnect` (graph.tsx:571): the drag-to-connect handler.  Looks up both
endpoints; rejects silently when the source is a `prompt` node; remotely
deletes the edges that would violate the single-child (analysis) or
per-handle (conditional) invariant; creates the new edge remotely; and on
success updates the mirrored child field and replaces the local edge set in
one transition. -/
def onConnect (st : GraphState) (r : Remote) (p : ConnectParams) (orc : ConnectOracle) :
    GraphState × Remote :=
  match st.nodes.find? (fun n => n.id = p.source),
        st.nodes.find? (fun n => n.id = p.target) with
  | some sourceNode, some targetNode =>
    if sourceNode.type = JVal.str "prompt" then (st, r)
    else
      let r1 := if sourceNode.type = JVal.str "analysis" then
          deleteEdgesRemote r (st.edges.filter (fun e => e.source = sourceNode.id)) orc.delOks
        else r
      let r2 := if sourceNode.type = JVal.str "conditional" ∧ jsTruthy p.sourceHandle then
          deleteEdgesRemote r1
            (st.edges.filter (fun e => e.source = p.source ∧ e.sourceHandle = p.sourceHandle))
            orc.delOks
        else r1
      match createEdge r2 sourceNode.id targetNode.id p.sourceHandle orc.insEdge with
      | (r3, none) => (st, r3)
      | (r3, some newEdgeObj) =>
        let res := updateNodeRelationships st r3 sourceNode targetNode p.sourceHandle false
          orc.fetchOk orc.updOk
        let st1 := res.1
        let newEdges := (st1.edges.filter (fun e =>
            if sourceNode.type = JVal.str "analysis" then e.source ≠ sourceNode.id
            else if sourceNode.type = JVal.str "conditional" ∧ jsTruthy p.sourceHandle then
              ¬ (e.source = sourceNode.id ∧ e.sourceHandle = p.sourceHandle)
            else true)) ++ [newEdgeObj]
        ({st1 with edges := newEdges}, res.2)
  | _, _ => (st, r)

/-- An edge change handed to the edges-change callback.  The callback only
acts on removal changes, which is the scope of the claims; other change kinds
(selection) do not touch the data we model. -/
inductive EdgeChange where
  | remove (id : String)
  deriving DecidableEq, Repr

/-- Behavior of the xyflow `applyEdgeChanges` helper on removal changes:
drop every edge named by a removal change. -/
def applyEdgeChanges (changes : List EdgeChange) (edges : List FlowEdge) : List FlowEdge :=
  edges.filter (fun e => !(changes.any (fun c => match c with | .remove i => i = e.id)))

/-- Environment oracle for one remote-mutation group: an edge delete and the
fetch / update pair inside `updateNodeData`. -/
structure MutOracle where
  delOk : Bool
  fetchOk : Bool
  updOk : Bool
  deriving DecidableEq, Repr

/-- One iteration of the removal loop of `onEdgesChangeCallback`
(graph.tsx:457): look the edge up in the edge list captured at callback
entry, delete it remotely (the result is not inspected), and if both
endpoints are found in the captured node list, clear the mirrored child
field. -/
def edgeRemoveStep (capturedNodes : List FlowNode) (capturedEdges : List FlowEdge)
    (c : EdgeChange) (orc : MutOracle) (st : GraphState) (r : Remote) :
    GraphState × Remote :=
  match c with
  | .remove edgeId =>
    match capturedEdges.find? (fun e => e.id = edgeId) with
    | none => (st, r)
    | some edge =>
      let r1 := (deleteEdge r edgeId orc.delOk).1
      match capturedNodes.find? (fun n => n.id = edge.source),
            capturedNodes.find? (fun n => n.id = edge.target) with
      | some sourceNode, some targetNode =>
        updateNodeRelationships st r1 sourceNode targetNode (normHandle edge.sourceHandle)
          true orc.fetchOk orc.updOk
      | _, _ => (st, r1)

/-- The removal loop of `onEdgesChangeCallback`, one oracle per change. -/
def edgeRemoveLoop (capturedNodes : List FlowNode) (capturedEdges : List FlowEdge) :
    List EdgeChange → List MutOracle → GraphState → Remote → GraphState × Remote
  | [], _, st, r => (st, r)
  | c :: cs, orcs, st, r =>
    let p := edgeRemoveStep capturedNodes capturedEdges c (orcs.headD ⟨true, true, true⟩) st r
    edgeRemoveLoop capturedNodes capturedEdges cs orcs.tail p.1 p.2

/-- `onEdgesChangeCallback` (graph.tsx:448): apply the changes to the local
edge list immediately, then process each removal change against the node and
edge lists captured at callback entry. -/
def onEdgesChangeCallback (st : GraphState) (r : Remote) (changes : List EdgeChange)
    (orcs : List MutOracle) : GraphState × Remote :=
  let st1 := {st with edges := applyEdgeChanges changes st.edges}
  edgeRemoveLoop st.nodes st.edges changes orcs st1 r

/-- The dummy target `\ x7b id: nodeId \x7d as Node` built inside `deleteNode`
(graph.tsx:504); only its id is ever read. -/
def dummyTarget (nodeId : String) : FlowNode :=
  { id := nodeId, position := ⟨0, 0⟩, type := JVal.jsUndefined, data := [] }

/-- One iteration of the connected-edge loop of `deleteNode`
(graph.tsx:499): delete the edge remotely (result not inspected) and, when
the deleted node was the edge's target and the edge's source is found in the
node list captured at callback entry, clear that node's mirrored child
field. -/
def deleteNodeStep (captured : List FlowNode) (nodeId : String) (e : FlowEdge)
    (orc : MutOracle) (st : GraphState) (r : Remote) : GraphState × Remote :=
  let r1 := (deleteEdge r e.id orc.delOk).1
  if e.target = nodeId then
    match captured.find? (fun n => n.id = e.source) with
    | some sourceNode =>
      updateNodeRelationships st r1 sourceNode (dummyTarget nodeId)
        (normHandle e.sourceHandle) true orc.fetchOk orc.updOk
    | none => (st, r1)
  else (st, r1)

/-- The connected-edge loop of `deleteNode`, one oracle per edge. -/
def deleteNodeLoop (captured : List FlowNode) (nodeId : String) :
    List FlowEdge → List MutOracle → GraphState → Remote → GraphState × Remote
  | [], _, st, r => (st, r)
  | e :: es, orcs, st, r =>
    let p := deleteNodeStep captured nodeId e (orcs.headD ⟨true, true, true⟩) st r
    deleteNodeLoop captured nodeId es orcs.tail p.1 p.2

/-- `deleteNode` (graph.tsx:481): drop the node and every edge touching it
from the local view, clear the selection if it pointed at the node, then for
each formerly touching edge delete it remotely and clear the mirrored child
field of the counterpart source node, and finally delete the node row
remotely (`delNodeOk` is that delete's environment outcome, which is the
returned success flag). -/
def deleteNode (st : GraphState) (r : Remote) (nodeId : String)
    (orcs : List MutOracle) (delNodeOk : Bool) : GraphState × Remote × Bool :=
  let st1 : GraphState :=
    { nodes := st.nodes.filter (fun n => n.id ≠ nodeId),
      edges := st.edges.filter (fun e => e.source ≠ nodeId ∧ e.target ≠ nodeId),
      selected := match st.selected with
        | some s => if s.id = nodeId then none else some s
        | none => none }
  let connectedEdges := st.edges.filter (fun e => e.source = nodeId ∨ e.target = nodeId)
  let p := deleteNodeLoop st.nodes nodeId connectedEdges orcs st1 r
  if delNodeOk then
    (p.1, {p.2 with nodes := p.2.nodes.filter (fun n => n.id ≠ nodeId)}, true)
  else (p.1, p.2, false)

/-- Environment oracle for one `handleAddNode` call: outcome of the node
insert (`none` = failure, `some id` = store-assigned id), of the automatic
edge insert, and of the two remote calls inside `updateNodeData`. -/
structure AddNodeOracle where
  insNode : Option String
  insEdge : Option String
  fetchOk : Bool
  updOk : Bool
  deriving DecidableEq, Repr

/-- `handleAddNode` (graph.tsx:643): create a node of the given type and
label at the fixed center position, both remotely and locally; then, if a
node is selected and is not of type `prompt`, automatically connect it to the
new node, choosing the first free handle (`true` before `false`) when the
selected node is `conditional`, and append the created edge to the local edge
list.  The type argument is a string (the TS `NodeType` union). -/
def handleAddNode (st : GraphState) (r : Remote) (graphId ty label : String)
    (orc : AddNodeOracle) : GraphState × Remote :=
  if graphId.isEmpty || label.isEmpty || ty.isEmpty then (st, r)
  else
    match orc.insNode with
    | none => (st, r)
    | some newNodeId =>
      let nodeData : JObj :=
        [("type", JVal.str ty)] ++ (if ty = "prompt" then [("prompt", JVal.str "")] else [])
      let r1 : Remote := {r with nodes := r.nodes ++
        [{ id := newNodeId, graph_id := graphId, label := label,
           position_x := 500, position_y := 300, data := nodeData }]}
      let newNode : FlowNode :=
        { id := newNodeId, position := ⟨500, 300⟩, type := JVal.str ty,
          data := [("label", JVal.str label), ("type", JVal.str ty)] ++
            (if ty = "prompt" then [("prompt", JVal.str "")] else []) }
      let st1 : GraphState := {st with nodes := st.nodes ++ [newNode]}
      match st.selected with
      | none => (st1, r1)
      | some sel =>
        if sel.type = JVal.str "prompt" then (st1, r1)
        else
          let sourceHandle : Option String :=
            if sel.type = JVal.str "conditional" then
              if !(st.edges.any (fun e => e.source = sel.id ∧ e.sourceHandle = some "true"))
              then some "true"
              else if !(st.edges.any (fun e =>
                  e.source = sel.id ∧ e.sourceHandle = some "false"))
              then some "false"
              else none
            else none
          match createEdge r1 sel.id newNodeId sourceHandle orc.insEdge with
          | (r2, none) => (st1, r2)
          | (r2, some newEdge) =>
            let res := updateNodeRelationships st1 r2 sel newNode sourceHandle false
              orc.fetchOk orc.updOk
            ({res.1 with edges := res.1.edges ++ [newEdge]}, res.2)

/-- The node reconstruction step of `fetchGraph` (graph.tsx:325): rebuild the
renderer-facing node from a stored row.  The stored type is defaulted with
`nodeData.type || "prompt"` (JavaScript `||`, i.e. the stored value when
truthy, `"prompt"` otherwise) and the per-type payload fields are copied from
the stored payload (`prompt` additionally defaulted to the empty string with
`||`). -/
def fetchFlowNode (node : RemoteNodeRow) : FlowNode :=
  let nodeData := node.data
  let nodeType : JVal :=
    if (nodeData.get "type").truthy then nodeData.get "type" else JVal.str "prompt"
  let baseNodeData : JObj := [("label", JVal.str node.label), ("type", nodeType)]
  let fullNodeData : JObj :=
    if nodeType = JVal.str "prompt" then
      baseNodeData ++
        [("prompt", if (nodeData.get "prompt").truthy then nodeData.get "prompt"
          else JVal.str "")]
    else if nodeType = JVal.str "analysis" then
      baseNodeData ++ [("childId", nodeData.get "childId")]
    else if nodeType = JVal.str "conditional" then
      baseNodeData ++ [("trueChildId", nodeData.get "trueChildId"),
        ("falseChildId", nodeData.get "falseChildId")]
    else baseNodeData
  { id := node.id, position := ⟨node.position_x, node.position_y⟩,
    type := nodeType, data := fullNodeData }

/-- The node list reconstruction of `fetchGraph`. -/
def fetchFlowNodes (nodesData : List RemoteNodeRow) : List FlowNode :=
  nodesData.map fetchFlowNode

/-- A position change event payload entry, as handed to the nodes-change
callback while dragging. -/
structure NodePosChange where
  id : String
  position : Position
  deriving DecidableEq, Repr

/-- Behavior of the xyflow `applyNodeChanges` helper on position changes:
each change moves the named node to its new position. -/
def applyNodeChanges (changes : List NodePosChange) (nodes : List FlowNode) :
    List FlowNode :=
  changes.foldl
    (fun ns c => ns.map (fun n => if n.id = c.id then {n with position := c.position} else n))
    nodes

/-- The debounce state of one view instance: the in-memory node list, the
single pending save timer of `debouncedUpdatePositions` (graph.tsx:434) with
its deadline and the node list it captured, and the batches already written
(each entry is one `updateGraphData` invocation: firing time and the node
list whose positions it persists). -/
structure DebounceState where
  nodes : List FlowNode
  timer : Option (Nat × List FlowNode)
  writes : List (Nat × List FlowNode)
  deriving DecidableEq, Repr

/-- Fire the pending timer if its deadline has been reached by time `t`
(the `setTimeout` body runs `updateGraphData` with the captured node list and
clears the timer slot). -/
def fireIfDue (s : DebounceState) (t : Nat) : DebounceState :=
  match s.timer with
  | some pend =>
    if pend.1 ≤ t then {s with timer := none, writes := s.writes ++ [pend]}
    else s
  | none => s

/-- One position-change invocation of `onNodesChangeCallback`
(graph.tsx:543) at clock time `t`: any due timer fires first; the changes are
applied to the in-memory node list immediately; and when the change list
holds at least one position change, `debouncedUpdatePositions` cancels the
pending timer and arms a new one 500 ms out, capturing the updated node
list. -/
def posChangeStep (s : DebounceState) (ev : Nat × List NodePosChange) : DebounceState :=
  let s1 := fireIfDue s ev.1
  let newNodes := applyNodeChanges ev.2 s1.nodes
  if ev.2.isEmpty then {s1 with nodes := newNodes}
  else {nodes := newNodes, timer := some (ev.1 + 500, newNodes), writes := s1.writes}

/-- Run a time-stamped sequence of position-change events. -/
def runPosChanges (s : DebounceState) (evs : List (Nat × List NodePosChange)) :
    DebounceState :=
  evs.foldl posChangeStep s

/-- Let the clock advance to time `t` with no further events: a due timer
fires. -/
def flushAt (s : DebounceState) (t : Nat) : DebounceState := fireIfDue s t

/-! Helper lemmas about `find?`, association lists and the local update
primitives. -/

theorem find_map_eq {α : Type} (f : α → α) (q : α → Bool) (l : List α)
    (hq : ∀ a, q (f a) = q a) : (l.map f).find? q = (l.find? q).map f := by
  induction l with
  | nil => rfl
  | cons a l ih =>
    simp only [List.map_cons, List.find?_cons, hq a]
    cases hqa : q a <;> simp [ih]

theorem JObj.get_of_not_hasKey (o : JObj) (k : String) (h : o.hasKey k = false) :
    o.get k = .jsUndefined := by
  induction o with
  | nil => rfl
  | cons p o ih =>
    simp only [JObj.hasKey, List.any_cons, Bool.or_eq_false_iff,
      decide_eq_false_iff_not] at h
    simp only [JObj.get, List.find?_cons, decide_eq_false h.1]
    exact ih h.2

theorem JObj.get_append (a b : JObj) (k : String) :
    (a ++ b).get k = if a.hasKey k then a.get k else b.get k := by
  induction a with
  | nil => simp [JObj.get, JObj.hasKey]
  | cons p a ih =>
    by_cases hpk : p.1 = k
    · simp [JObj.get, JObj.hasKey, List.find?_cons, List.any_cons, hpk]
    · simp only [List.cons_append, JObj.get, List.find?_cons, decide_eq_false hpk,
        JObj.hasKey, List.any_cons, Bool.false_or] at ih ⊢
      exact ih

theorem JObj.get_cons (p : String × JVal) (o : JObj) (k : String) :
    JObj.get (p :: o) k = if p.1 = k then p.2 else JObj.get o k := by
  by_cases h : p.1 = k <;> simp [JObj.get, List.find?_cons, h]

theorem JObj.hasKey_cons (p : String × JVal) (o : JObj) (k : String) :
    JObj.hasKey (p :: o) k = (decide (p.1 = k) || JObj.hasKey o k) := by
  simp [JObj.hasKey]

theorem JObj.get_map_override (a b : JObj) (k : String) (hk : JObj.hasKey a k = true) :
    JObj.get (a.map (fun p => if JObj.hasKey b p.1 then (p.1, JObj.get b p.1) else p)) k =
      if JObj.hasKey b k then JObj.get b k else JObj.get a k := by
  induction a with
  | nil => simp [JObj.hasKey] at hk
  | cons p a ih =>
    have hkey : (if JObj.hasKey b p.1 then (p.1, JObj.get b p.1) else p).1 = p.1 := by
      by_cases hb : JObj.hasKey b p.1 <;> simp [hb]
    by_cases hpk : p.1 = k
    · subst hpk
      by_cases hb : JObj.hasKey b p.1 <;>
        simp [List.map_cons, JObj.get_cons, hb]
    · rw [JObj.hasKey_cons, decide_eq_false hpk, Bool.false_or] at hk
      rw [List.map_cons, JObj.get_cons, hkey, if_neg hpk, JObj.get_cons, if_neg hpk]
      exact ih hk

theorem JObj.get_filter_keep (a b : JObj) (k : String) (hk : JObj.hasKey a k = false) :
    JObj.get (b.filter (fun p => !(JObj.hasKey a p.1))) k = JObj.get b k := by
  induction b with
  | nil => rfl
  | cons q b ih =>
    by_cases hqk : q.1 = k
    · subst hqk
      simp [List.filter_cons, hk, JObj.get_cons]
    · by_cases ha : JObj.hasKey a q.1
      · simp [List.filter_cons, ha, ih, JObj.get_cons, hqk]
      · have hfa : JObj.hasKey a q.1 = false := by simpa using ha
        simp [List.filter_cons, hfa, JObj.get_cons, hqk, ih]

theorem JObj.hasKey_map_override (a b : JObj) (k : String) :
    JObj.hasKey (a.map (fun p => if JObj.hasKey b p.1 then (p.1, JObj.get b p.1) else p)) k =
      JObj.hasKey a k := by
  induction a with
  | nil => rfl
  | cons p a ih =>
    have hkey : (if JObj.hasKey b p.1 then (p.1, JObj.get b p.1) else p).1 = p.1 := by
      by_cases hb : JObj.hasKey b p.1 <;> simp [hb]
    rw [List.map_cons, JObj.hasKey_cons, JObj.hasKey_cons, hkey, ih]

theorem JObj.get_merge (a b : JObj) (k : String) :
    JObj.get (JObj.merge a b) k =
      if JObj.hasKey b k then JObj.get b k else JObj.get a k := by
  unfold JObj.merge
  rw [JObj.get_append]
  by_cases hak : JObj.hasKey a k
  · rw [JObj.hasKey_map_override, if_pos hak, JObj.get_map_override a b k hak]
  · rw [JObj.hasKey_map_override, if_neg hak, JObj.get_filter_keep a b k (by simpa using hak)]
    by_cases hb : JObj.hasKey b k
    · rw [if_pos hb]
    · rw [if_neg hb, JObj.get_of_not_hasKey a k (by simpa using hak),
        JObj.get_of_not_hasKey b k (by simpa using hb)]

theorem JObj.get_merge_single (o : JObj) (k : String) (v : JVal) (k2 : String) :
    JObj.get (JObj.merge o [(k, v)]) k2 = if k2 = k then v else JObj.get o k2 := by
  rw [JObj.get_merge]
  by_cases h : k2 = k
  · subst h
    simp [JObj.hasKey, JObj.get_cons]
  · have h2 : ¬(k = k2) := fun hh => h hh.symm
    simp [JObj.hasKey, JObj.get_cons, h, h2]

theorem find_of_mem_nodup {α : Type} (key : α → String) (l : List α) (a : α)
    (hnd : (l.map key).Nodup) (ha : a ∈ l) :
    l.find? (fun b => key b = key a) = some a := by
  induction l with
  | nil => cases ha
  | cons b t ih =>
    rcases List.mem_cons.mp ha with rfl | hat
    · simp [List.find?_cons]
    · have hkey : ¬ key b = key a := by
        intro hk
        have hmem : key a ∈ t.map key := List.mem_map_of_mem key hat
        rw [← hk] at hmem
        exact (List.nodup_cons.mp hnd).1 hmem
      simp only [List.find?_cons, decide_eq_false hkey]
      exact ih (List.nodup_cons.mp hnd).2 hat

theorem nodup_key_filter {α : Type} (key : α → String) (p : α → Bool) (l : List α)
    (hnd : (l.map key).Nodup) : ((l.filter p).map key).Nodup :=
  hnd.sublist (List.Sublist.map key (List.filter_sublist l))

theorem find_filter_of_mem_nodup {α : Type} (key : α → String) (p : α → Bool)
    (l : List α) (a : α) (hnd : (l.map key).Nodup) (ha : a ∈ l) (hp : p a = true) :
    (l.filter p).find? (fun b => key b = key a) = some a :=
  find_of_mem_nodup key _ a (nodup_key_filter key p l hnd)
    (List.mem_filter.mpr ⟨ha, hp⟩)

theorem localMergeNodes_map_id (l : List FlowNode) (nid : String) (d : JObj) :
    (localMergeNodes l nid d).map (fun n => n.id) = l.map (fun n => n.id) := by
  unfold localMergeNodes
  rw [List.map_map]
  apply List.map_congr_left
  intro n _
  by_cases h : n.id = nid <;> simp [h]

theorem find_localMergeNodes (l : List FlowNode) (nid : String) (d : JObj) (aid : String) :
    (localMergeNodes l nid d).find? (fun n => n.id = aid) =
      (l.find? (fun n => n.id = aid)).map
        (fun n => if n.id = nid then {n with data := JObj.merge n.data d} else n) := by
  apply find_map_eq
  intro n
  by_cases h : n.id = nid <;> simp [h]

theorem updateNodeData_fst (st : GraphState) (r : Remote) (nid : String) (d : JObj)
    (f u : Bool) :
    (updateNodeData st r nid d f u).1 =
      {st with nodes := localMergeNodes st.nodes nid d} := by
  unfold updateNodeData
  split
  · rfl
  · split <;> rfl

/-- The payload patch `updateNodeRelationships` writes, as a function of the
source node type, the handle and the remove flag (`none` when it writes
nothing). -/
def relPatch (sourceType : JVal) (sourceHandle : Option String) (isRemove : Bool)
    (targetId : String) : Option JObj :=
  if sourceType = JVal.str "analysis" then
    some [("childId", if isRemove then JVal.jsUndefined else JVal.str targetId)]
  else if sourceType = JVal.str "conditional" then
    if sourceHandle = some "true" then
      some [("trueChildId", if isRemove then JVal.jsUndefined else JVal.str targetId)]
    else if sourceHandle = some "false" then
      some [("falseChildId", if isRemove then JVal.jsUndefined else JVal.str targetId)]
    else none
  else none

theorem updateNodeRelationships_fst (st : GraphState) (r : Remote) (sn tn : FlowNode)
    (h : Option String) (rm f u : Bool) :
    (updateNodeRelationships st r sn tn h rm f u).1 =
      (match relPatch sn.type h rm tn.id with
       | some patch => {st with nodes := localMergeNodes st.nodes sn.id patch}
       | none => st) := by
  unfold updateNodeRelationships relPatch
  by_cases h1 : sn.type = JVal.str "analysis"
  · simp [h1, updateNodeData_fst]
  · by_cases h2 : sn.type = JVal.str "conditional"
    · by_cases h3 : h = some "true"
      · simp [h1, h2, h3, updateNodeData_fst]
      · by_cases h4 : h = some "false" <;> simp [h1, h2, h3, h4, updateNodeData_fst]
    · simp [h1, h2]

theorem relPatch_remove_shape (t : JVal) (h : Option String) (tid : String) (patch : JObj)
    (hp : relPatch t h true tid = some patch) :
    patch = [("childId", JVal.jsUndefined)] ∨ patch = [("trueChildId", JVal.jsUndefined)] ∨
      patch = [("falseChildId", JVal.jsUndefined)] := by
  unfold relPatch at hp
  by_cases h1 : t = JVal.str "analysis"
  · simp [h1] at hp
    exact Or.inl hp.symm
  · by_cases h2 : t = JVal.str "conditional"
    · by_cases h3 : h = some "true"
      · simp [h1, h2, h3] at hp
        exact Or.inr (Or.inl hp.symm)
      · by_cases h4 : h = some "false"
        · simp [h1, h2, h3, h4] at hp
          exact Or.inr (Or.inr hp.symm)
        · simp [h1, h2, h3, h4] at hp
    · simp [h1, h2] at hp

theorem deleteNodeStep_fst (cap : List FlowNode) (nid : String) (e : FlowEdge)
    (orc : MutOracle) (st : GraphState) (r : Remote) :
    (deleteNodeStep cap nid e orc st r).1 =
      (if e.target = nid then
        match cap.find? (fun n => n.id = e.source) with
        | some sn =>
          (match relPatch sn.type (normHandle e.sourceHandle) true nid with
           | some patch => {st with nodes := localMergeNodes st.nodes sn.id patch}
           | none => st)
        | none => st
      else st) := by
  unfold deleteNodeStep
  by_cases ht : e.target = nid
  · simp only [ht, if_true]
    cases hf : cap.find? (fun n => n.id = e.source) with
    | none => rfl
    | some sn =>
      simp only []
      rw [updateNodeRelationships_fst]
      rfl
  · simp [ht]

theorem deleteNodeLoop_edges (cap : List FlowNode) (nid : String) :
    ∀ (es : List FlowEdge) (orcs : List MutOracle) (st : GraphState) (r : Remote),
    (deleteNodeLoop cap nid es orcs st r).1.edges = st.edges := by
  intro es
  induction es with
  | nil => intro orcs st r; rfl
  | cons e es ih =>
    intro orcs st r
    simp only [deleteNodeLoop]
    rw [ih, deleteNodeStep_fst]
    split
    · split
      · split <;> rfl
      · rfl
    · rfl

theorem deleteNodeLoop_selected (cap : List FlowNode) (nid : String) :
    ∀ (es : List FlowEdge) (orcs : List MutOracle) (st : GraphState) (r : Remote),
    (deleteNodeLoop cap nid es orcs st r).1.selected = st.selected := by
  intro es
  induction es with
  | nil => intro orcs st r; rfl
  | cons e es ih =>
    intro orcs st r
    simp only [deleteNodeLoop]
    rw [ih, deleteNodeStep_fst]
    split
    · split
      · split <;> rfl
      · rfl
    · rfl

theorem deleteNodeLoop_map_id (cap : List FlowNode) (nid : String) :
    ∀ (es : List FlowEdge) (orcs : List MutOracle) (st : GraphState) (r : Remote),
    ((deleteNodeLoop cap nid es orcs st r).1.nodes).map (fun n => n.id) =
      st.nodes.map (fun n => n.id) := by
  intro es
  induction es with
  | nil => intro orcs st r; rfl
  | cons e es ih =>
    intro orcs st r
    simp only [deleteNodeLoop]
    rw [ih, deleteNodeStep_fst]
    split
    · split
      · split
        · exact localMergeNodes_map_id _ _ _
        · rfl
      · rfl
    · rfl

/-- The set of keys the relationship-clearing patches may touch. -/
def relKey (k : String) : Prop :=
  k = "childId" ∨ k = "trueChildId" ∨ k = "falseChildId"

theorem deleteNodeStep_track (cap : List FlowNode) (nid : String) (e : FlowEdge)
    (orc : MutOracle) (st : GraphState) (r : Remote) (aid : String) (a : FlowNode)
    (hf : st.nodes.find? (fun n => n.id = aid) = some a) :
    ∃ a1, (deleteNodeStep cap nid e orc st r).1.nodes.find? (fun n => n.id = aid) = some a1 ∧
      (a1 = a ∨ ∃ k0, relKey k0 ∧ a1 = {a with data := JObj.merge a.data [(k0, JVal.jsUndefined)]}) := by
  rw [deleteNodeStep_fst]
  split
  · split
    next sn hsn =>
      cases hrp : relPatch sn.type (normHandle e.sourceHandle) true nid with
      | none =>
        simp only [hrp]
        exact ⟨a, hf, Or.inl rfl⟩
      | some patch =>
        simp only [hrp]
        rw [find_localMergeNodes, hf]
        simp only [Option.map_some']
        by_cases haid : a.id = sn.id
        · refine ⟨{a with data := JObj.merge a.data patch}, ?_, Or.inr ?_⟩
          · rw [if_pos haid]
          · rcases relPatch_remove_shape _ _ _ _ hrp with hsh | hsh | hsh
            · exact ⟨"childId", by simp [relKey], by rw [hsh]⟩
            · exact ⟨"trueChildId", by simp [relKey], by rw [hsh]⟩
            · exact ⟨"falseChildId", by simp [relKey], by rw [hsh]⟩
        · exact ⟨a, by rw [if_neg haid], Or.inl rfl⟩
    next hsn => exact ⟨a, hf, Or.inl rfl⟩
  · exact ⟨a, hf, Or.inl rfl⟩

theorem deleteNodeStep_track_rev (cap : List FlowNode) (nid : String) (e : FlowEdge)
    (orc : MutOracle) (st : GraphState) (r : Remote) (aid : String) (a1 : FlowNode)
    (hf1 : (deleteNodeStep cap nid e orc st r).1.nodes.find? (fun n => n.id = aid) = some a1) :
    ∃ a, st.nodes.find? (fun n => n.id = aid) = some a ∧
      (a1 = a ∨ ∃ k0, relKey k0 ∧ a1 = {a with data := JObj.merge a.data [(k0, JVal.jsUndefined)]}) := by
  rw [deleteNodeStep_fst] at hf1
  revert hf1
  split
  · split
    next sn hsn =>
      cases hrp : relPatch sn.type (normHandle e.sourceHandle) true nid with
      | none =>
        simp only [hrp]
        intro hf1
        exact ⟨a1, hf1, Or.inl rfl⟩
      | some patch =>
        simp only [hrp]
        rw [find_localMergeNodes]
        intro hf1
        rcases Option.map_eq_some'.mp hf1 with ⟨a, hfa, ha1⟩
        by_cases haid : a.id = sn.id
        · rw [if_pos haid] at ha1
          refine ⟨a, hfa, Or.inr ?_⟩
          rcases relPatch_remove_shape _ _ _ _ hrp with hsh | hsh | hsh
          · exact ⟨"childId", by simp [relKey], by rw [← ha1, hsh]⟩
          · exact ⟨"trueChildId", by simp [relKey], by rw [← ha1, hsh]⟩
          · exact ⟨"falseChildId", by simp [relKey], by rw [← ha1, hsh]⟩
        · rw [if_neg haid] at ha1
          exact ⟨a, hfa, Or.inl ha1.symm⟩
    next hsn =>
      intro hf1
      exact ⟨a1, hf1, Or.inl rfl⟩
  · intro hf1
    exact ⟨a1, hf1, Or.inl rfl⟩

theorem deleteNodeLoop_track (cap : List FlowNode) (nid : String) :
    ∀ (es : List FlowEdge) (orcs : List MutOracle) (st : GraphState) (r : Remote)
      (aid : String) (a : FlowNode),
    st.nodes.find? (fun n => n.id = aid) = some a →
    ∃ a2, (deleteNodeLoop cap nid es orcs st r).1.nodes.find? (fun n => n.id = aid) = some a2 ∧
      a2.id = a.id ∧ a2.type = a.type ∧ a2.position = a.position ∧
      ∀ k, ¬ relKey k → JObj.get a2.data k = JObj.get a.data k := by
  intro es
  induction es with
  | nil =>
    intro orcs st r aid a hf
    exact ⟨a, hf, rfl, rfl, rfl, fun k _ => rfl⟩
  | cons e es ih =>
    intro orcs st r aid a hf
    simp only [deleteNodeLoop]
    rcases deleteNodeStep_track cap nid e (orcs.headD ⟨true, true, true⟩) st r aid a hf with
      ⟨a1, hf1, hrel⟩
    rcases ih orcs.tail _ _ aid a1 hf1 with ⟨a2, hf2, hid, hty, hpos, hframe⟩
    rcases hrel with rfl | ⟨k0, hk0, rfl⟩
    · exact ⟨a2, hf2, hid, hty, hpos, hframe⟩
    · refine ⟨a2, hf2, hid, hty, hpos, ?_⟩
      intro k hk
      rw [hframe k hk]
      show JObj.get (JObj.merge a.data [(k0, JVal.jsUndefined)]) k = JObj.get a.data k
      have hne : ¬ k = k0 := fun hkk => hk (hkk.symm ▸ hk0)
      rw [JObj.get_merge_single, if_neg hne]

theorem deleteNodeLoop_untouched (cap : List FlowNode) (nid : String) :
    ∀ (es : List FlowEdge) (orcs : List MutOracle) (st : GraphState) (r : Remote)
      (aid : String) (a : FlowNode),
    (∀ e ∈ es, ¬ (e.target = nid ∧ e.source = aid)) →
    st.nodes.find? (fun n => n.id = aid) = some a →
    (deleteNodeLoop cap nid es orcs st r).1.nodes.find? (fun n => n.id = aid) = some a := by
  intro es
  induction es with
  | nil => intro orcs st r aid a _ hf; exact hf
  | cons e es ih =>
    intro orcs st r aid a hno hf
    simp only [deleteNodeLoop]
    refine ih orcs.tail _ _ aid a (fun e2 he2 => hno e2 (List.mem_cons_of_mem e he2)) ?_
    rw [deleteNodeStep_fst]
    split
    next ht =>
      split
      next sn hsn =>
        cases hrp : relPatch sn.type (normHandle e.sourceHandle) true nid with
        | none => simpa only [hrp] using hf
        | some patch =>
          simp only [hrp]
          rw [find_localMergeNodes, hf]
          have hsnid : sn.id = e.source := by simpa using List.find?_some hsn
          have haid : a.id = aid := by simpa using List.find?_some hf
          have hsrc : ¬ e.source = aid := fun hs => hno e (List.mem_cons_self e es) ⟨ht, hs⟩
          have hne : ¬ a.id = sn.id := by
            rw [haid, hsnid]
            exact fun hh => hsrc hh.symm
          simp [hne]
      next hsn => exact hf
    next ht => exact hf

theorem deleteNodeLoop_undef (cap : List FlowNode) (nid : String) :
    ∀ (es : List FlowEdge) (orcs : List MutOracle) (st : GraphState) (r : Remote)
      (aid k : String),
    (∀ a, st.nodes.find? (fun n => n.id = aid) = some a → JObj.get a.data k = JVal.jsUndefined) →
    ∀ a2, (deleteNodeLoop cap nid es orcs st r).1.nodes.find? (fun n => n.id = aid) = some a2 →
    JObj.get a2.data k = JVal.jsUndefined := by
  intro es
  induction es with
  | nil =>
    intro orcs st r aid k hpre a2 hf2
    exact hpre a2 hf2
  | cons e es ih =>
    intro orcs st r aid k hpre a2 hf2
    simp only [deleteNodeLoop] at hf2
    refine ih orcs.tail _ _ aid k ?_ a2 hf2
    intro a1 hf1
    rcases deleteNodeStep_track_rev cap nid e (orcs.headD ⟨true, true, true⟩) st r aid a1 hf1
      with ⟨a, hfa, hrel⟩
    rcases hrel with heq | ⟨k0, hk0, heq⟩
    · rw [heq]
      exact hpre a hfa
    · rw [heq]
      show JObj.get (JObj.merge a.data [(k0, JVal.jsUndefined)]) k = JVal.jsUndefined
      rw [JObj.get_merge_single]
      by_cases hkk : k = k0
      · rw [if_pos hkk]
      · rw [if_neg hkk]
        exact hpre a hfa

theorem deleteNodeLoop_clears (cap : List FlowNode) (nid : String) :
    ∀ (es : List FlowEdge) (orcs : List MutOracle) (st : GraphState) (r : Remote)
      (e : FlowEdge) (sn : FlowNode),
    e ∈ es → e.target = nid →
    cap.find? (fun n => n.id = e.source) = some sn →
    ∀ a2,
      (deleteNodeLoop cap nid es orcs st r).1.nodes.find? (fun n => n.id = sn.id) = some a2 →
    (sn.type = JVal.str "analysis" → JObj.get a2.data "childId" = JVal.jsUndefined) ∧
    (sn.type = JVal.str "conditional" → normHandle e.sourceHandle = some "true" →
      JObj.get a2.data "trueChildId" = JVal.jsUndefined) ∧
    (sn.type = JVal.str "conditional" → normHandle e.sourceHandle = some "false" →
      JObj.get a2.data "falseChildId" = JVal.jsUndefined) := by
  intro es
  induction es with
  | nil =>
    intro orcs st r e sn he
    cases he
  | cons e1 es ih =>
    intro orcs st r e sn he ht hsn a2 hf2
    simp only [deleteNodeLoop] at hf2
    rcases List.mem_cons.mp he with rfl | hees
    · have key : ∀ patch k0, relPatch sn.type (normHandle e.sourceHandle) true nid =
          some patch → patch = [(k0, JVal.jsUndefined)] → JObj.get a2.data k0 = JVal.jsUndefined := by
        intro patch k0 hrp hpk
        have hstep : (deleteNodeStep cap nid e (orcs.headD ⟨true, true, true⟩) st r).1.nodes =
            localMergeNodes st.nodes sn.id patch := by
          rw [deleteNodeStep_fst]
          simp [ht, hsn, hrp]
        subst hpk
        refine deleteNodeLoop_undef cap nid es orcs.tail _ _ sn.id k0 ?_ a2 hf2
        intro a1 hf1
        rw [hstep, find_localMergeNodes] at hf1
        rcases Option.map_eq_some'.mp hf1 with ⟨a, hfa, ha1⟩
        have haid : a.id = sn.id := by simpa using List.find?_some hfa
        rw [if_pos haid] at ha1
        rw [← ha1]
        show JObj.get (JObj.merge a.data [(k0, JVal.jsUndefined)]) k0 = JVal.jsUndefined
        rw [JObj.get_merge_single, if_pos rfl]
      refine ⟨?_, ?_, ?_⟩
      · intro hty
        refine key [("childId", JVal.jsUndefined)] "childId" ?_ rfl
        unfold relPatch
        simp [hty]
      · intro hty hh
        refine key [("trueChildId", JVal.jsUndefined)] "trueChildId" ?_ rfl
        unfold relPatch
        simp [hty, hh]
      · intro hty hh
        refine key [("falseChildId", JVal.jsUndefined)] "falseChildId" ?_ rfl
        unfold relPatch
        simp [hty, hh]
    · exact ih orcs.tail _ _ e sn hees ht hsn a2 hf2

theorem deleteNode_fst (st : GraphState) (r : Remote) (nid : String)
    (orcs : List MutOracle) (ok : Bool) :
    (deleteNode st r nid orcs ok).1 =
      (deleteNodeLoop st.nodes nid
        (st.edges.filter (fun e => e.source = nid ∨ e.target = nid)) orcs
        { nodes := st.nodes.filter (fun n => n.id ≠ nid),
          edges := st.edges.filter (fun e => e.source ≠ nid ∧ e.target ≠ nid),
          selected := match st.selected with
            | some s => if s.id = nid then none else some s
            | none => none } r).1 := by
  cases ok <;> (unfold deleteNode; split <;> rfl)

/-- C6: for every node deletion via `deleteNode`, exactly the edges whose
source or target is the deleted node are removed from the local edge list;
the remaining node list holds exactly the other nodes, each keeping its id,
type, position and all payload keys other than the mirrored child fields, and
a node untouched by any edge into the deleted node is left fully unchanged;
for each removed edge whose target was the deleted node, the relationship
field corresponding to the source node's type and the edge's handle is
cleared on that source node; and the selection is cleared exactly when it was
the deleted node. -/
theorem C6_deleteNode_exact (st : GraphState) (r : Remote)
    (nodeId : String) (orcs : List MutOracle) (ok : Bool)
    (hnd : (st.nodes.map (fun n => n.id)).Nodup) :
    (deleteNode st r nodeId orcs ok).1.edges =
        st.edges.filter (fun e => e.source ≠ nodeId ∧ e.target ≠ nodeId) ∧
    (deleteNode st r nodeId orcs ok).1.selected =
        (match st.selected with
         | some s => if s.id = nodeId then none else some s
         | none => none) ∧
    (deleteNode st r nodeId orcs ok).1.nodes.map (fun n => n.id) =
        (st.nodes.filter (fun n => n.id ≠ nodeId)).map (fun n => n.id) ∧
    (∀ a ∈ st.nodes, a.id ≠ nodeId →
      (∀ e ∈ st.edges, ¬ (e.target = nodeId ∧ e.source = a.id)) →
      (deleteNode st r nodeId orcs ok).1.nodes.find? (fun n => n.id = a.id) = some a) ∧
    (∀ a ∈ st.nodes, a.id ≠ nodeId →
      ∃ a2, (deleteNode st r nodeId orcs ok).1.nodes.find? (fun n => n.id = a.id) = some a2 ∧
        a2.type = a.type ∧ a2.position = a.position ∧
        ∀ k, ¬ relKey k → JObj.get a2.data k = JObj.get a.data k) ∧
    (∀ e ∈ st.edges, e.target = nodeId → ∀ a ∈ st.nodes, a.id = e.source → a.id ≠ nodeId →
      ∃ a2, (deleteNode st r nodeId orcs ok).1.nodes.find? (fun n => n.id = a.id) = some a2 ∧
        (a.type = JVal.str "analysis" → JObj.get a2.data "childId" = JVal.jsUndefined) ∧
        (a.type = JVal.str "conditional" → normHandle e.sourceHandle = some "true" →
          JObj.get a2.data "trueChildId" = JVal.jsUndefined) ∧
        (a.type = JVal.str "conditional" → normHandle e.sourceHandle = some "false" →
          JObj.get a2.data "falseChildId" = JVal.jsUndefined)) := by
  rw [deleteNode_fst]
  set ces := st.edges.filter (fun e => e.source = nodeId ∨ e.target = nodeId) with hces
  set st1 : GraphState :=
    { nodes := st.nodes.filter (fun n => n.id ≠ nodeId),
      edges := st.edges.filter (fun e => e.source ≠ nodeId ∧ e.target ≠ nodeId),
      selected := match st.selected with
        | some s => if s.id = nodeId then none else some s
        | none => none } with hst1
  have hsurv : ∀ a ∈ st.nodes, a.id ≠ nodeId →
      st1.nodes.find? (fun n => n.id = a.id) = some a := by
    intro a ha hane
    rw [hst1]
    exact find_filter_of_mem_nodup (fun n => n.id) (fun n => decide (n.id ≠ nodeId))
      st.nodes a hnd ha (decide_eq_true hane)
  refine ⟨?_, ?_, ?_, ?_, ?_, ?_⟩
  · rw [deleteNodeLoop_edges, hst1]
  · rw [deleteNodeLoop_selected, hst1]
  · rw [deleteNodeLoop_map_id, hst1]
  · intro a ha hane hno
    refine deleteNodeLoop_untouched st.nodes nodeId ces orcs st1 r a.id a ?_ (hsurv a ha hane)
    intro e he2
    rw [hces] at he2
    exact hno e (List.mem_filter.mp he2).1
  · intro a ha hane
    rcases deleteNodeLoop_track st.nodes nodeId ces orcs st1 r a.id a (hsurv a ha hane) with
      ⟨a2, hf2, _, hty, hpos, hframe⟩
    exact ⟨a2, hf2, hty, hpos, hframe⟩
  · intro e he htarget a ha hasrc hane
    have hfa : st.nodes.find? (fun n => n.id = a.id) = some a :=
      find_of_mem_nodup (fun n => n.id) st.nodes a hnd ha
    rw [hasrc] at hfa
    have he2 : e ∈ ces := by
      rw [hces]
      exact List.mem_filter.mpr ⟨he, decide_eq_true (Or.inr htarget)⟩
    rcases deleteNodeLoop_track st.nodes nodeId ces orcs st1 r a.id a (hsurv a ha hane) with
      ⟨a2, hf2, _, _, _, _⟩
    have hclears := deleteNodeLoop_clears st.nodes nodeId ces orcs st1 r e a he2 htarget hfa a2 hf2
    exact ⟨a2, hf2, hclears.1, hclears.2.1, hclears.2.2⟩

theorem updateNodeRelationships_fst_edges (st : GraphState) (r : Remote) (sn tn : FlowNode)
    (h : Option String) (rm f u : Bool) :
    (updateNodeRelationships st r sn tn h rm f u).1.edges = st.edges := by
  rw [updateNodeRelationships_fst]
  cases hx : relPatch sn.type h rm tn.id <;> simp [hx]

theorem updateNodeRelationships_fst_selected (st : GraphState) (r : Remote) (sn tn : FlowNode)
    (h : Option String) (rm f u : Bool) :
    (updateNodeRelationships st r sn tn h rm f u).1.selected = st.selected := by
  rw [updateNodeRelationships_fst]
  cases hx : relPatch sn.type h rm tn.id <;> simp [hx]

theorem onConnect_fst_analysis (st : GraphState) (r : Remote) (p : ConnectParams)
    (orc : ConnectOracle) (a tn : FlowNode)
    (hfa : st.nodes.find? (fun n => n.id = p.source) = some a)
    (hft : st.nodes.find? (fun n => n.id = p.target) = some tn)
    (hty : a.type = JVal.str "analysis") :
    (onConnect st r p orc).1 =
      (match orc.insEdge with
       | none => st
       | some newId =>
         { nodes := localMergeNodes st.nodes a.id [("childId", JVal.str tn.id)],
           edges := (st.edges.filter (fun e => ¬ e.source = a.id)) ++
             [{ id := newId, source := a.id, target := tn.id,
                sourceHandle := if jsTruthy p.sourceHandle then p.sourceHandle else none }],
           selected := st.selected }) := by
  have hnp : ¬ (a.type = JVal.str "prompt") := by rw [hty]; simp
  have hnc : ¬ (a.type = JVal.str "conditional") := by rw [hty]; simp
  unfold onConnect
  rw [hfa, hft]
  simp only [if_neg hnp]
  cases hins : orc.insEdge with
  | none => simp [createEdge, hins]
  | some newId =>
    simp only [createEdge, hins]
    have hpatch : relPatch a.type p.sourceHandle false tn.id =
        some [("childId", JVal.str tn.id)] := by
      unfold relPatch
      simp [hty]
    rw [updateNodeRelationships_fst, hpatch]
    simp [hty]

theorem onConnect_fst_noTarget (st : GraphState) (r : Remote) (p : ConnectParams)
    (orc : ConnectOracle)
    (hft : st.nodes.find? (fun n => n.id = p.target) = none) :
    (onConnect st r p orc).1 = st := by
  unfold onConnect
  cases hfa : st.nodes.find? (fun n => n.id = p.source) <;> simp [hfa, hft]

theorem onConnect_fst_conditional (st : GraphState) (r : Remote) (p : ConnectParams)
    (orc : ConnectOracle) (a tn : FlowNode)
    (hfa : st.nodes.find? (fun n => n.id = p.source) = some a)
    (hft : st.nodes.find? (fun n => n.id = p.target) = some tn)
    (hty : a.type = JVal.str "conditional")
    (hh : jsTruthy p.sourceHandle = true) :
    (onConnect st r p orc).1 =
      (match orc.insEdge with
       | none => st
       | some newId =>
         { nodes := (match relPatch a.type p.sourceHandle false tn.id with
             | some patch => localMergeNodes st.nodes a.id patch
             | none => st.nodes),
           edges := (st.edges.filter (fun e =>
               ¬ (e.source = a.id ∧ e.sourceHandle = p.sourceHandle))) ++
             [{ id := newId, source := a.id, target := tn.id,
                sourceHandle := p.sourceHandle }],
           selected := st.selected }) := by
  have hnp : ¬ (a.type = JVal.str "prompt") := by rw [hty]; simp
  unfold onConnect
  rw [hfa, hft]
  simp only [if_neg hnp]
  cases hins : orc.insEdge with
  | none => simp [createEdge, hins]
  | some newId =>
    simp only [createEdge, hins]
    rw [updateNodeRelationships_fst]
    cases hpatch : relPatch a.type p.sourceHandle false tn.id with
    | none => simp [hty, hh, hpatch]
    | some patch => simp [hty, hh, hpatch]

/-- The mirror condition between the outgoing edges of one slot and a
mirrored payload value: either no edge and the value reads `undefined`, or
exactly one edge and the value holds its target. -/
def handleMirror (out : List FlowEdge) (v : JVal) : Bool :=
  match out with
  | [] => v = JVal.jsUndefined
  | [e] => v = JVal.str e.target
  | _ => false

/-- The C1 invariant for an `analysis` node: the node is present with type
`analysis`, it has at most one outgoing edge in the local edge list, and its
`childId` payload value reads as that edge's target (or as `undefined` when
it has no outgoing edge). -/
def analysisInv (st : GraphState) (aid : String) : Bool :=
  match st.nodes.find? (fun n => n.id = aid) with
  | some a => decide (a.type = JVal.str "analysis") &&
      handleMirror (st.edges.filter (fun e => e.source = aid)) (JObj.get a.data "childId")
  | none => false

/-- The C2 invariant for a `conditional` node: the node is present with type
`conditional`, it has at most one outgoing edge per handle in the local edge
list, and `trueChildId` / `falseChildId` mirror the `true` / `false` handle
edges. -/
def conditionalInv (st : GraphState) (did : String) : Bool :=
  match st.nodes.find? (fun n => n.id = did) with
  | some d => decide (d.type = JVal.str "conditional") &&
      handleMirror (st.edges.filter (fun e => e.source = did ∧ e.sourceHandle = some "true"))
        (JObj.get d.data "trueChildId") &&
      handleMirror (st.edges.filter (fun e => e.source = did ∧ e.sourceHandle = some "false"))
        (JObj.get d.data "falseChildId")
  | none => false

theorem analysisInv_connect_step (st : GraphState) (r : Remote) (p : ConnectParams)
    (orc : ConnectOracle)
    (hinv : analysisInv st p.source = true) :
    analysisInv (onConnect st r p orc).1 p.source = true := by
  unfold analysisInv at hinv
  cases hfa : st.nodes.find? (fun n => n.id = p.source) with
  | none => rw [hfa] at hinv; cases hinv
  | some a =>
    rw [hfa] at hinv
    have hsplit := hinv
    rw [Bool.and_eq_true] at hsplit
    have hty : a.type = JVal.str "analysis" := of_decide_eq_true hsplit.1
    have hmir := hsplit.2
    have haid : a.id = p.source := by simpa using List.find?_some hfa
    cases hft : st.nodes.find? (fun n => n.id = p.target) with
    | none =>
      rw [onConnect_fst_noTarget st r p orc hft]
      unfold analysisInv
      rw [hfa]
      exact hinv
    | some tn =>
      rw [onConnect_fst_analysis st r p orc a tn hfa hft hty]
      cases hins : orc.insEdge with
      | none =>
        simp only []
        unfold analysisInv
        rw [hfa]
        exact hinv
      | some newId =>
        simp only []
        unfold analysisInv
        rw [find_localMergeNodes, hfa]
        simp only [Option.map_some', if_true]
        have hnil : (st.edges.filter (fun e => ¬ e.source = a.id)).filter
            (fun e => e.source = p.source) = [] := by
          rw [List.filter_filter]
          apply List.filter_eq_nil_iff.mpr
          intro e _
          simp [haid]
        rw [Bool.and_eq_true]
        constructor
        · simp [hty]
        · rw [List.filter_append, hnil, List.nil_append]
          simp [List.filter_cons, haid, handleMirror, JObj.get_merge_single]

theorem conditionalInv_connect_step (st : GraphState) (r : Remote) (p : ConnectParams)
    (orc : ConnectOracle)
    (hh : p.sourceHandle = some "true" ∨ p.sourceHandle = some "false")
    (hinv : conditionalInv st p.source = true) :
    conditionalInv (onConnect st r p orc).1 p.source = true := by
  unfold conditionalInv at hinv
  cases hfa : st.nodes.find? (fun n => n.id = p.source) with
  | none => rw [hfa] at hinv; cases hinv
  | some d =>
    rw [hfa] at hinv
    have hsplit := hinv
    rw [Bool.and_eq_true, Bool.and_eq_true] at hsplit
    have hty : d.type = JVal.str "conditional" := of_decide_eq_true hsplit.1.1
    have hmirT := hsplit.1.2
    have hmirF := hsplit.2
    have hdid : d.id = p.source := by simpa using List.find?_some hfa
    have htruthy : jsTruthy p.sourceHandle = true := by
      rcases hh with hh | hh <;> rw [hh] <;> decide
    cases hft : st.nodes.find? (fun n => n.id = p.target) with
    | none =>
      rw [onConnect_fst_noTarget st r p orc hft]
      unfold conditionalInv
      rw [hfa]
      exact hinv
    | some tn =>
      rw [onConnect_fst_conditional st r p orc d tn hfa hft hty htruthy]
      cases hins : orc.insEdge with
      | none =>
        simp only []
        unfold conditionalInv
        rw [hfa]
        exact hinv
      | some newId =>
        simp only []
        rcases hh with hh | hh
        · have hpatch : relPatch d.type p.sourceHandle false tn.id =
              some [("trueChildId", JVal.str tn.id)] := by
            unfold relPatch
            simp [hty, hh]
          rw [hpatch]
          simp only []
          unfold conditionalInv
          rw [find_localMergeNodes, hfa]
          simp only [Option.map_some', if_true]
          have hnilT : (st.edges.filter (fun e =>
              ¬ (e.source = d.id ∧ e.sourceHandle = p.sourceHandle))).filter
              (fun e => e.source = p.source ∧ e.sourceHandle = some "true") = [] := by
            rw [List.filter_filter]
            apply List.filter_eq_nil_iff.mpr
            intro e _
            simp [hdid, hh]
          have hsameF : (st.edges.filter (fun e =>
              ¬ (e.source = d.id ∧ e.sourceHandle = p.sourceHandle))).filter
              (fun e => e.source = p.source ∧ e.sourceHandle = some "false") =
              st.edges.filter
                (fun e => e.source = p.source ∧ e.sourceHandle = some "false") := by
            rw [List.filter_filter]
            apply List.filter_congr
            intro e _
            by_cases hef : e.source = p.source ∧ e.sourceHandle = some "false"
            · simp [hef, hdid, hh]
            · simp [hef]
          rw [Bool.and_eq_true, Bool.and_eq_true]
          refine ⟨⟨by simp [hty], ?_⟩, ?_⟩
          · rw [List.filter_append, hnilT, List.nil_append]
            simp [List.filter_cons, hdid, hh, handleMirror, JObj.get_merge_single]
          · rw [List.filter_append, hsameF]
            have hdrop : List.filter
                (fun e => e.source = p.source ∧ e.sourceHandle = some "false")
                [({ id := newId, source := d.id, target := tn.id,
                    sourceHandle := p.sourceHandle } : FlowEdge)] = [] := by
              simp [List.filter_cons, hh]
            rw [hdrop, List.append_nil]
            have hgetF : JObj.get (JObj.merge d.data [("trueChildId", JVal.str tn.id)])
                "falseChildId" = JObj.get d.data "falseChildId" := by
              rw [JObj.get_merge_single]
              simp
            rw [hgetF]
            exact hmirF
        · have hpatch : relPatch d.type p.sourceHandle false tn.id =
              some [("falseChildId", JVal.str tn.id)] := by
            unfold relPatch
            simp [hty, hh]
          rw [hpatch]
          simp only []
          unfold conditionalInv
          rw [find_localMergeNodes, hfa]
          simp only [Option.map_some', if_true]
          have hnilF : (st.edges.filter (fun e =>
              ¬ (e.source = d.id ∧ e.sourceHandle = p.sourceHandle))).filter
              (fun e => e.source = p.source ∧ e.sourceHandle = some "false") = [] := by
            rw [List.filter_filter]
            apply List.filter_eq_nil_iff.mpr
            intro e _
            simp [hdid, hh]
          have hsameT : (st.edges.filter (fun e =>
              ¬ (e.source = d.id ∧ e.sourceHandle = p.sourceHandle))).filter
              (fun e => e.source = p.source ∧ e.sourceHandle = some "true") =
              st.edges.filter
                (fun e => e.source = p.source ∧ e.sourceHandle = some "true") := by
            rw [List.filter_filter]
            apply List.filter_congr
            intro e _
            by_cases hef : e.source = p.source ∧ e.sourceHandle = some "true"
            · simp [hef, hdid, hh]
            · simp [hef]
          rw [Bool.and_eq_true, Bool.and_eq_true]
          refine ⟨⟨by simp [hty], ?_⟩, ?_⟩
          · rw [List.filter_append, hsameT]
            have hdrop : List.filter
                (fun e => e.source = p.source ∧ e.sourceHandle = some "true")
                [({ id := newId, source := d.id, target := tn.id,
                    sourceHandle := p.sourceHandle } : FlowEdge)] = [] := by
              simp [List.filter_cons, hh]
            rw [hdrop, List.append_nil]
            have hgetT : JObj.get (JObj.merge d.data [("falseChildId", JVal.str tn.id)])
                "trueChildId" = JObj.get d.data "trueChildId" := by
              rw [JObj.get_merge_single]
              simp
            rw [hgetT]
            exact hmirT
          · rw [List.filter_append, hnilF, List.nil_append]
            simp [List.filter_cons, hdid, hh, handleMirror, JObj.get_merge_single]

/-- C1: for every sequence of connect operations whose source is a given
node satisfying the `analysis` invariant (present, of type `analysis`, with
at most one outgoing edge mirrored by `childId`), the invariant still holds
after the whole sequence — in particular after each prefix — whatever the
targets, handles and remote outcomes of the individual operations are. -/
theorem C1_analysis_connect_invariant (st : GraphState) (r : Remote) (aid : String)
    (ops : List (ConnectParams × ConnectOracle))
    (hsrc : ∀ po ∈ ops, po.1.source = aid)
    (hinv : analysisInv st aid = true) :
    analysisInv (ops.foldl (fun sr po => onConnect sr.1 sr.2 po.1 po.2) (st, r)).1 aid =
      true := by
  induction ops generalizing st r with
  | nil => exact hinv
  | cons po ops ih =>
    simp only [List.foldl_cons]
    refine ih _ _ (fun q hq => hsrc q (List.mem_cons_of_mem po hq)) ?_
    have hps : po.1.source = aid := hsrc po (List.mem_cons_self po ops)
    rw [← hps] at hinv ⊢
    exact analysisInv_connect_step st r po.1 po.2 hinv

/-- C2: for every sequence of connect operations whose source is a given
node satisfying the `conditional` invariant and whose handle is `true` or
`false`, the invariant (at most one outgoing edge per handle, mirrored by
`trueChildId` / `falseChildId`) still holds after the whole sequence,
whatever the targets and remote outcomes are. -/
theorem C2_conditional_connect_invariant (st : GraphState) (r : Remote) (did : String)
    (ops : List (ConnectParams × ConnectOracle))
    (hsrc : ∀ po ∈ ops, po.1.source = did ∧
      (po.1.sourceHandle = some "true" ∨ po.1.sourceHandle = some "false"))
    (hinv : conditionalInv st did = true) :
    conditionalInv (ops.foldl (fun sr po => onConnect sr.1 sr.2 po.1 po.2) (st, r)).1 did =
      true := by
  induction ops generalizing st r with
  | nil => exact hinv
  | cons po ops ih =>
    simp only [List.foldl_cons]
    refine ih _ _ (fun q hq => hsrc q (List.mem_cons_of_mem po hq)) ?_
    have hps := hsrc po (List.mem_cons_self po ops)
    rw [← hps.1] at hinv ⊢
    exact conditionalInv_connect_step st r po.1 po.2 hps.2 hinv

/-- C5: a connect whose source node has type `prompt` is a silent no-op:
the local view and the remote store are both returned unchanged (no edge is
created or deleted anywhere and no payload field is touched). -/
theorem C5_prompt_connect_noop (st : GraphState) (r : Remote) (p : ConnectParams)
    (orc : ConnectOracle) (sn : FlowNode)
    (hfa : st.nodes.find? (fun n => n.id = p.source) = some sn)
    (hty : sn.type = JVal.str "prompt") :
    onConnect st r p orc = (st, r) := by
  unfold onConnect
  rw [hfa]
  cases hft : st.nodes.find? (fun n => n.id = p.target) with
  | none => rfl
  | some tn =>
    simp only []
    rw [if_pos hty]

/-- Fixture: an `analysis` node with no child reference. -/
def exAnalysisA : FlowNode :=
  { id := "A", position := ⟨0, 0⟩, type := JVal.str "analysis",
    data := [("label", JVal.str "A"), ("type", JVal.str "analysis")] }

/-- Fixture: a `prompt` node. -/
def exPromptB : FlowNode :=
  { id := "B", position := ⟨10, 10⟩, type := JVal.str "prompt",
    data := [("label", JVal.str "B"), ("type", JVal.str "prompt"), ("prompt", JVal.str "")] }

/-- Fixture: a second `prompt` node. -/
def exPromptE : FlowNode :=
  { id := "E", position := ⟨30, 30⟩, type := JVal.str "prompt",
    data := [("label", JVal.str "E"), ("type", JVal.str "prompt"), ("prompt", JVal.str "")] }

/-- Fixture: a `conditional` node with no child references. -/
def exCondD : FlowNode :=
  { id := "D", position := ⟨20, 20⟩, type := JVal.str "conditional",
    data := [("label", JVal.str "D"), ("type", JVal.str "conditional")] }

/-- Fixture: an `analysis` node whose `childId` references `B`. -/
def exAnalysisAB : FlowNode :=
  { id := "A", position := ⟨0, 0⟩, type := JVal.str "analysis",
    data := [("label", JVal.str "A"), ("type", JVal.str "analysis"),
      ("childId", JVal.str "B")] }

/-- Fixture: the edge from `A` to `B`. -/
def exEdgeAB : FlowEdge := { id := "e1", source := "A", target := "B", sourceHandle := none }

/-- Fixture: a fresh two-node graph state with no edges. -/
def exState0 : GraphState := { nodes := [exAnalysisA, exPromptB], edges := [], selected := none }

/-- Fixture: a remote store matching `exState0`. -/
def exRemote0 : Remote :=
  { nodes := [⟨"A", "g1", "A", 0, 0, [("type", JVal.str "analysis")]⟩,
      ⟨"B", "g1", "B", 10, 10, [("type", JVal.str "prompt"), ("prompt", JVal.str "")]⟩],
    edges := [] }

/-- Fixture: the state in which `A` is connected to `B` and `B` is selected. -/
def exStateAB : GraphState :=
  { nodes := [exAnalysisAB, exPromptB], edges := [exEdgeAB], selected := some exPromptB }

/-- Fixture: a remote store matching `exStateAB`. -/
def exRemoteAB : Remote :=
  { nodes := [⟨"A", "g1", "A", 0, 0, [("type", JVal.str "analysis"), ("childId", JVal.str "B")]⟩,
      ⟨"B", "g1", "B", 10, 10, [("type", JVal.str "prompt"), ("prompt", JVal.str "")]⟩],
    edges := [⟨"e1", "A", "B"⟩] }

/-- Fixture: a conditional node `D` plus two prompt nodes, no edges. -/
def exStateD : GraphState :=
  { nodes := [exCondD, exPromptB, exPromptE], edges := [], selected := none }

/-- Fixture: a remote store matching `exStateD`. -/
def exRemoteD : Remote :=
  { nodes := [⟨"D", "g1", "D", 20, 20, [("type", JVal.str "conditional")]⟩,
      ⟨"B", "g1", "B", 10, 10, [("type", JVal.str "prompt"), ("prompt", JVal.str "")]⟩,
      ⟨"E", "g1", "E", 30, 30, [("type", JVal.str "prompt"), ("prompt", JVal.str "")]⟩],
    edges := [] }

/-- Concrete instance of the C1 theorem: on a fresh graph, connect `A`→`B`
twice (the second insert replacing the first edge); the invariant holds. -/
theorem C1_analysis_connect_invariant_witness :
    ((∀ po ∈ ([(⟨"A", "B", none⟩, ⟨[], some "e1", true, true⟩),
        (⟨"A", "B", none⟩, ⟨[true], some "e2", true, true⟩)] :
        List (ConnectParams × ConnectOracle)), po.1.source = "A") ∧
      analysisInv exState0 "A" = true) ∧
    analysisInv (([(⟨"A", "B", none⟩, ⟨[], some "e1", true, true⟩),
        (⟨"A", "B", none⟩, ⟨[true], some "e2", true, true⟩)] :
        List (ConnectParams × ConnectOracle)).foldl
      (fun sr po => onConnect sr.1 sr.2 po.1 po.2) (exState0, exRemote0)).1 "A" = true :=
  ⟨⟨by decide, by decide⟩,
    C1_analysis_connect_invariant exState0 exRemote0 "A" _ (by decide) (by decide)⟩

/-- Concrete instance of the C2 theorem: connect `D`→`B` on `true`, then
`D`→`E` on `true` (replacement), then `D`→`B` on `false`; the invariant
holds. -/
theorem C2_conditional_connect_invariant_witness :
    ((∀ po ∈ ([(⟨"D", "B", some "true"⟩, ⟨[], some "e1", true, true⟩),
        (⟨"D", "E", some "true"⟩, ⟨[true], some "e2", true, true⟩),
        (⟨"D", "B", some "false"⟩, ⟨[], some "e3", true, true⟩)] :
        List (ConnectParams × ConnectOracle)), po.1.source = "D" ∧
          (po.1.sourceHandle = some "true" ∨ po.1.sourceHandle = some "false")) ∧
      conditionalInv exStateD "D" = true) ∧
    conditionalInv (([(⟨"D", "B", some "true"⟩, ⟨[], some "e1", true, true⟩),
        (⟨"D", "E", some "true"⟩, ⟨[true], some "e2", true, true⟩),
        (⟨"D", "B", some "false"⟩, ⟨[], some "e3", true, true⟩)] :
        List (ConnectParams × ConnectOracle)).foldl
      (fun sr po => onConnect sr.1 sr.2 po.1 po.2) (exStateD, exRemoteD)).1 "D" = true :=
  ⟨⟨by decide, by decide⟩,
    C2_conditional_connect_invariant exStateD exRemoteD "D" _ (by decide) (by decide)⟩

/-- Concrete instance of the C5 theorem: connecting from the prompt node `B`
changes neither the local view nor the remote store. -/
theorem C5_prompt_connect_noop_witness :
    (exState0.nodes.find? (fun n => n.id = ("B" : String)) = some exPromptB ∧
      exPromptB.type = JVal.str "prompt") ∧
    onConnect exState0 exRemote0 ⟨"B", "A", none⟩ ⟨[], some "e9", true, true⟩ =
      (exState0, exRemote0) :=
  ⟨⟨by decide, by decide⟩,
    C5_prompt_connect_noop exState0 exRemote0 ⟨"B", "A", none⟩ ⟨[], some "e9", true, true⟩
      exPromptB (by decide) (by decide)⟩

/-- Concrete instance of the C6 theorem: deleting `B` from the connected
graph removes exactly the touching edge `e1`. -/
theorem C6_deleteNode_exact_witness :
    (exStateAB.nodes.map (fun n => n.id)).Nodup ∧
    (deleteNode exStateAB exRemoteAB "B" [⟨true, true, true⟩] true).1.edges =
      exStateAB.edges.filter (fun e => e.source ≠ "B" ∧ e.target ≠ "B") :=
  ⟨by decide,
    (C6_deleteNode_exact exStateAB exRemoteAB "B" [⟨true, true, true⟩] true (by decide)).1⟩

/-- Fixture: the connected graph with the `analysis` node `A` selected. -/
def exStateABselA : GraphState :=
  { nodes := [exAnalysisAB, exPromptB], edges := [exEdgeAB], selected := some exAnalysisAB }

/-- C3 (evaluation at the failing input): adding a node `G` while the
`analysis` node `A` — which already has the outgoing edge `e1` — is selected
leaves `A` with two outgoing edges in the local view: `handleAddNode` appends
the automatic edge without deleting the existing one, while `childId` is
rewritten to point at the new node only. -/
theorem C3_handleAddNode_keeps_existing_edge :
    ((handleAddNode exStateABselA exRemoteAB "g1" "prompt" "G"
        ⟨some "G", some "e2", true, true⟩).1.edges.filter
      (fun e => e.source = "A")).length = 2 ∧
    (handleAddNode exStateABselA exRemoteAB "g1" "prompt" "G"
        ⟨some "G", some "e2", true, true⟩).1.edges =
      [exEdgeAB, ⟨"e2", "A", "G", none⟩] ∧
    ((handleAddNode exStateABselA exRemoteAB "g1" "prompt" "G"
        ⟨some "G", some "e2", true, true⟩).1.nodes.find?
      (fun n => n.id = ("A" : String))).map (fun n => JObj.get n.data "childId") =
      some (JVal.str "G") := by
  decide

/-- C8: when a node is added while a `conditional` node is selected and both
remote inserts succeed, the automatically created edge runs from the selected
node to the new node on the first free handle, preferring `true` over
`false`: handle `true` is chosen when the selected node has no outgoing
`true`-handle edge, otherwise handle `false` is chosen when it has no
outgoing `false`-handle edge. -/
theorem C8_handleAddNode_first_free_handle (st : GraphState) (r : Remote)
    (graphId ty label : String) (fOk uOk : Bool) (sel : FlowNode) (nid eid : String)
    (hg : graphId.isEmpty = false) (hl : label.isEmpty = false) (hty0 : ty.isEmpty = false)
    (hsel : st.selected = some sel)
    (hcty : sel.type = JVal.str "conditional") :
    (st.edges.any (fun e => e.source = sel.id ∧ e.sourceHandle = some "true") = false →
      (handleAddNode st r graphId ty label ⟨some nid, some eid, fOk, uOk⟩).1.edges =
        st.edges ++ [⟨eid, sel.id, nid, some "true"⟩]) ∧
    (st.edges.any (fun e => e.source = sel.id ∧ e.sourceHandle = some "true") = true →
      st.edges.any (fun e => e.source = sel.id ∧ e.sourceHandle = some "false") = false →
      (handleAddNode st r graphId ty label ⟨some nid, some eid, fOk, uOk⟩).1.edges =
        st.edges ++ [⟨eid, sel.id, nid, some "false"⟩]) := by
  have hnp : ¬ (sel.type = JVal.str "prompt") := by rw [hcty]; simp
  have htruthyT : jsTruthy (some "true") = true := by decide
  have htruthyF : jsTruthy (some "false") = true := by decide
  constructor
  · intro hTrue
    have hT2 : ∀ x ∈ st.edges, x.source = sel.id → ¬ x.sourceHandle = some "true" := by
      simpa using hTrue
    unfold handleAddNode
    simp [hg, hl, hty0, hsel, hnp, hcty, hTrue, createEdge, htruthyT,
      updateNodeRelationships_fst_edges]
    rw [if_pos hT2]
    exact ⟨htruthyT, hT2⟩
  · intro hTrue hFalse
    have hTnot : ¬ (∀ x ∈ st.edges, x.source = sel.id → ¬ x.sourceHandle = some "true") := by
      simpa using hTrue
    have hF2 : ∀ x ∈ st.edges, x.source = sel.id → ¬ x.sourceHandle = some "false" := by
      simpa using hFalse
    unfold handleAddNode
    simp [hg, hl, hty0, hsel, hnp, hcty, createEdge, htruthyF,
      updateNodeRelationships_fst_edges]
    rw [if_neg hTnot, if_pos hF2]
    exact ⟨htruthyF, rfl⟩

/-- Fixture: `D` with an existing `true`-handle edge to `E`, selected. -/
def exEdgeDEtrue : FlowEdge :=
  { id := "e5", source := "D", target := "E", sourceHandle := some "true" }

/-- Fixture: the conditional graph with `D` selected and a `true` edge. -/
def exStateDselD : GraphState :=
  { nodes := [exCondD, exPromptB, exPromptE], edges := [exEdgeDEtrue],
    selected := some exCondD }

/-- Concrete instance of the C8 theorem: `D` already has a `true` edge, so
the automatic edge for the new node `G` is created on handle `false`. -/
theorem C8_handleAddNode_first_free_handle_witness :
    (("g1" : String).isEmpty = false ∧ ("prompt" : String).isEmpty = false ∧
      ("G" : String).isEmpty = false ∧ exStateDselD.selected = some exCondD ∧
      exCondD.type = JVal.str "conditional") ∧
    (handleAddNode exStateDselD exRemoteD "g1" "prompt" "G"
        ⟨some "G", some "e6", true, true⟩).1.edges =
      exStateDselD.edges ++ [⟨"e6", exCondD.id, "G", some "false"⟩] :=
  ⟨⟨by decide, by decide, by decide, by decide, by decide⟩,
    (C8_handleAddNode_first_free_handle exStateDselD exRemoteD "g1" "prompt" "G" true true
      exCondD "G" "e6" (by decide) (by decide) (by decide) (by decide) (by decide)).2
      (by decide) (by decide)⟩

theorem edgeRemoveStep_fst (capN : List FlowNode) (capE : List FlowEdge) (c : EdgeChange)
    (orc : MutOracle) (st : GraphState) (r : Remote) :
    (edgeRemoveStep capN capE c orc st r).1 =
      (match c with
       | .remove edgeId =>
         match capE.find? (fun e => e.id = edgeId) with
         | none => st
         | some edge =>
           match capN.find? (fun n => n.id = edge.source),
                 capN.find? (fun n => n.id = edge.target) with
           | some sn, some tn =>
             (match relPatch sn.type (normHandle edge.sourceHandle) true tn.id with
              | some patch => {st with nodes := localMergeNodes st.nodes sn.id patch}
              | none => st)
           | some _, none => st
           | none, _ => st) := by
  cases c with
  | remove edgeId =>
    simp only [edgeRemoveStep]
    cases hfe : capE.find? (fun e => e.id = edgeId) with
    | none => rfl
    | some edge =>
      simp only []
      cases hfs : capN.find? (fun n => n.id = edge.source) with
      | none => rfl
      | some sn =>
        cases hft : capN.find? (fun n => n.id = edge.target) with
        | none => rfl
        | some tn =>
          simp only []
          rw [updateNodeRelationships_fst]

theorem edgeRemoveStep_fst_edges (capN : List FlowNode) (capE : List FlowEdge)
    (c : EdgeChange) (orc : MutOracle) (st : GraphState) (r : Remote) :
    (edgeRemoveStep capN capE c orc st r).1.edges = st.edges := by
  rw [edgeRemoveStep_fst]
  cases c with
  | remove edgeId =>
    simp only []
    cases capE.find? (fun e => e.id = edgeId) with
    | none => rfl
    | some edge =>
      simp only []
      cases capN.find? (fun n => n.id = edge.source) with
      | none => rfl
      | some sn =>
        cases capN.find? (fun n => n.id = edge.target) with
        | none => rfl
        | some tn =>
          simp only []
          cases relPatch sn.type (normHandle edge.sourceHandle) true tn.id <;> rfl

theorem edgeRemoveLoop_edges (capN : List FlowNode) (capE : List FlowEdge) :
    ∀ (cs : List EdgeChange) (orcs : List MutOracle) (st : GraphState) (r : Remote),
    (edgeRemoveLoop capN capE cs orcs st r).1.edges = st.edges := by
  intro cs
  induction cs with
  | nil => intro orcs st r; rfl
  | cons c cs ih =>
    intro orcs st r
    simp only [edgeRemoveLoop]
    rw [ih, edgeRemoveStep_fst_edges]

/-- C4 (counterexample to the claim as stated): process removal of edge `e1`
with the remote delete FAILING.  The remote edge row survives (so the remote
delete did not succeed), yet `childId` on the source node `A` is cleared in
the local view anyway, and the local edge list still drops the edge: the
relationship field is not cleared "only when the remote delete succeeds". -/
theorem C4_cleared_despite_failed_delete :
    (onEdgesChangeCallback exStateAB exRemoteAB [.remove "e1"]
        [⟨false, true, true⟩]).2.edges = [⟨"e1", "A", "B"⟩] ∧
    ((onEdgesChangeCallback exStateAB exRemoteAB [.remove "e1"]
        [⟨false, true, true⟩]).1.nodes.find? (fun n => n.id = ("A" : String))).map
      (fun n => JObj.get n.data "childId") = some JVal.jsUndefined ∧
    (onEdgesChangeCallback exStateAB exRemoteAB [.remove "e1"]
        [⟨false, true, true⟩]).1.edges = [] := by
  decide

theorem edgeRemoveStep_find_some (capN : List FlowNode) (capE : List FlowEdge)
    (c : EdgeChange) (orc : MutOracle) (st : GraphState) (r : Remote) (aid : String)
    (a : FlowNode) (hf : st.nodes.find? (fun n => n.id = aid) = some a) :
    ∃ a1, (edgeRemoveStep capN capE c orc st r).1.nodes.find?
      (fun n => n.id = aid) = some a1 := by
  rw [edgeRemoveStep_fst]
  cases c with
  | remove edgeId =>
    simp only []
    cases hfe : capE.find? (fun x => x.id = edgeId) with
    | none => exact ⟨a, hf⟩
    | some edge =>
      simp only []
      cases hfs : capN.find? (fun n => n.id = edge.source) with
      | none => exact ⟨a, hf⟩
      | some sn =>
        cases hft : capN.find? (fun n => n.id = edge.target) with
        | none => exact ⟨a, hf⟩
        | some tn =>
          simp only []
          cases hrp : relPatch sn.type (normHandle edge.sourceHandle) true tn.id with
          | none => exact ⟨a, hf⟩
          | some patch =>
            simp only []
            rw [find_localMergeNodes, hf]
            exact ⟨_, rfl⟩

theorem edgeRemoveLoop_find_some (capN : List FlowNode) (capE : List FlowEdge) :
    ∀ (cs : List EdgeChange) (orcs : List MutOracle) (st : GraphState) (r : Remote)
      (aid : String) (a : FlowNode),
    st.nodes.find? (fun n => n.id = aid) = some a →
    ∃ a2, (edgeRemoveLoop capN capE cs orcs st r).1.nodes.find?
      (fun n => n.id = aid) = some a2 := by
  intro cs
  induction cs with
  | nil =>
    intro orcs st r aid a hf
    exact ⟨a, hf⟩
  | cons c cs ih =>
    intro orcs st r aid a hf
    simp only [edgeRemoveLoop]
    rcases edgeRemoveStep_find_some capN capE c (orcs.headD ⟨true, true, true⟩) st r aid a hf
      with ⟨a1, hf1⟩
    exact ih orcs.tail _ _ aid a1 hf1

theorem edgeRemoveStep_track_rev (capN : List FlowNode) (capE : List FlowEdge)
    (c : EdgeChange) (orc : MutOracle) (st : GraphState) (r : Remote) (aid : String)
    (a1 : FlowNode)
    (hf1 : (edgeRemoveStep capN capE c orc st r).1.nodes.find?
      (fun n => n.id = aid) = some a1) :
    ∃ a, st.nodes.find? (fun n => n.id = aid) = some a ∧
      (a1 = a ∨ ∃ k0, relKey k0 ∧
        a1 = {a with data := JObj.merge a.data [(k0, JVal.jsUndefined)]}) := by
  rw [edgeRemoveStep_fst] at hf1
  revert hf1
  cases c with
  | remove edgeId =>
    simp only []
    cases hfe : capE.find? (fun x => x.id = edgeId) with
    | none =>
      intro hf1
      exact ⟨a1, hf1, Or.inl rfl⟩
    | some edge =>
      simp only []
      cases hfs : capN.find? (fun n => n.id = edge.source) with
      | none =>
        intro hf1
        exact ⟨a1, hf1, Or.inl rfl⟩
      | some sn =>
        cases hft : capN.find? (fun n => n.id = edge.target) with
        | none =>
          intro hf1
          exact ⟨a1, hf1, Or.inl rfl⟩
        | some tn =>
          simp only []
          cases hrp : relPatch sn.type (normHandle edge.sourceHandle) true tn.id with
          | none =>
            intro hf1
            exact ⟨a1, hf1, Or.inl rfl⟩
          | some patch =>
            simp only []
            rw [find_localMergeNodes]
            intro hf1
            rcases Option.map_eq_some'.mp hf1 with ⟨a, hfa, ha1⟩
            by_cases haid : a.id = sn.id
            · rw [if_pos haid] at ha1
              refine ⟨a, hfa, Or.inr ?_⟩
              rcases relPatch_remove_shape _ _ _ _ hrp with hsh | hsh | hsh
              · exact ⟨"childId", by simp [relKey], by rw [← ha1, hsh]⟩
              · exact ⟨"trueChildId", by simp [relKey], by rw [← ha1, hsh]⟩
              · exact ⟨"falseChildId", by simp [relKey], by rw [← ha1, hsh]⟩
            · rw [if_neg haid] at ha1
              exact ⟨a, hfa, Or.inl ha1.symm⟩

theorem edgeRemoveLoop_undef (capN : List FlowNode) (capE : List FlowEdge) :
    ∀ (cs : List EdgeChange) (orcs : List MutOracle) (st : GraphState) (r : Remote)
      (aid k : String),
    (∀ a, st.nodes.find? (fun n => n.id = aid) = some a →
      JObj.get a.data k = JVal.jsUndefined) →
    ∀ a2, (edgeRemoveLoop capN capE cs orcs st r).1.nodes.find?
        (fun n => n.id = aid) = some a2 →
    JObj.get a2.data k = JVal.jsUndefined := by
  intro cs
  induction cs with
  | nil =>
    intro orcs st r aid k hpre a2 hf2
    exact hpre a2 hf2
  | cons c cs ih =>
    intro orcs st r aid k hpre a2 hf2
    simp only [edgeRemoveLoop] at hf2
    refine ih orcs.tail _ _ aid k ?_ a2 hf2
    intro a1 hf1
    rcases edgeRemoveStep_track_rev capN capE c (orcs.headD ⟨true, true, true⟩) st r aid a1 hf1
      with ⟨a, hfa, hrel⟩
    rcases hrel with heq | ⟨k0, hk0, heq⟩
    · rw [heq]
      exact hpre a hfa
    · rw [heq]
      show JObj.get (JObj.merge a.data [(k0, JVal.jsUndefined)]) k = JVal.jsUndefined
      rw [JObj.get_merge_single]
      by_cases hkk : k = k0
      · rw [if_pos hkk]
      · rw [if_neg hkk]
        exact hpre a hfa

theorem edgeRemoveLoop_clears (capN : List FlowNode) (capE : List FlowEdge) :
    ∀ (cs : List EdgeChange) (orcs : List MutOracle) (st : GraphState) (r : Remote)
      (eid : String) (e : FlowEdge) (sn tn : FlowNode),
    EdgeChange.remove eid ∈ cs →
    capE.find? (fun x => x.id = eid) = some e →
    capN.find? (fun n => n.id = e.source) = some sn →
    capN.find? (fun n => n.id = e.target) = some tn →
    ∀ a2, (edgeRemoveLoop capN capE cs orcs st r).1.nodes.find?
        (fun n => n.id = sn.id) = some a2 →
    (sn.type = JVal.str "analysis" → JObj.get a2.data "childId" = JVal.jsUndefined) ∧
    (sn.type = JVal.str "conditional" → normHandle e.sourceHandle = some "true" →
      JObj.get a2.data "trueChildId" = JVal.jsUndefined) ∧
    (sn.type = JVal.str "conditional" → normHandle e.sourceHandle = some "false" →
      JObj.get a2.data "falseChildId" = JVal.jsUndefined) := by
  intro cs
  induction cs with
  | nil =>
    intro orcs st r eid e sn tn he
    cases he
  | cons c1 cs ih =>
    intro orcs st r eid e sn tn he hfe hfs hft a2 hf2
    simp only [edgeRemoveLoop] at hf2
    rcases List.mem_cons.mp he with rfl | hecs
    · have key : ∀ patch k0, relPatch sn.type (normHandle e.sourceHandle) true tn.id =
          some patch → patch = [(k0, JVal.jsUndefined)] →
          JObj.get a2.data k0 = JVal.jsUndefined := by
        intro patch k0 hrp hpk
        have hstep : (edgeRemoveStep capN capE (.remove eid)
            (orcs.headD ⟨true, true, true⟩) st r).1.nodes =
            localMergeNodes st.nodes sn.id patch := by
          rw [edgeRemoveStep_fst]
          simp [hfe, hfs, hft, hrp]
        subst hpk
        refine edgeRemoveLoop_undef capN capE cs orcs.tail _ _ sn.id k0 ?_ a2 hf2
        intro a1 hf1
        rw [hstep, find_localMergeNodes] at hf1
        rcases Option.map_eq_some'.mp hf1 with ⟨a, hfa, ha1⟩
        have haid : a.id = sn.id := by simpa using List.find?_some hfa
        rw [if_pos haid] at ha1
        rw [← ha1]
        show JObj.get (JObj.merge a.data [(k0, JVal.jsUndefined)]) k0 = JVal.jsUndefined
        rw [JObj.get_merge_single, if_pos rfl]
      refine ⟨?_, ?_, ?_⟩
      · intro hty
        refine key [("childId", JVal.jsUndefined)] "childId" ?_ rfl
        unfold relPatch
        simp [hty]
      · intro hty hh
        refine key [("trueChildId", JVal.jsUndefined)] "trueChildId" ?_ rfl
        unfold relPatch
        simp [hty, hh]
      · intro hty hh
        refine key [("falseChildId", JVal.jsUndefined)] "falseChildId" ?_ rfl
        unfold relPatch
        simp [hty, hh]
    · exact ih orcs.tail _ _ eid e sn tn hecs hfe hfs hft a2 hf2

/-- C4 (amended): for every list of edge-removal changes processed by the
edges-change callback, with arbitrary remote outcomes: the local edge list
becomes exactly the old list minus the removed edges, independently of every
remote outcome (the callback ignores the delete results); and for every
removal change whose edge and both endpoints are found in the captured
lists, the relationship field corresponding to the source node's type and
the edge's handle — `childId` for an `analysis` source, `trueChildId` /
`falseChildId` for a `conditional` source with the matching handle — is
cleared on the source node regardless of whether the remote delete
succeeded. -/
theorem C4_remove_clears_regardless (st : GraphState) (r : Remote)
    (changes : List EdgeChange) (orcs : List MutOracle) :
    (onEdgesChangeCallback st r changes orcs).1.edges =
        applyEdgeChanges changes st.edges ∧
    (∀ eid, EdgeChange.remove eid ∈ changes →
      ∀ x ∈ (onEdgesChangeCallback st r changes orcs).1.edges, ¬ x.id = eid) ∧
    (∀ eid (e : FlowEdge) (sn tn : FlowNode), EdgeChange.remove eid ∈ changes →
      st.edges.find? (fun x => x.id = eid) = some e →
      st.nodes.find? (fun n => n.id = e.source) = some sn →
      st.nodes.find? (fun n => n.id = e.target) = some tn →
      ∃ a2, (onEdgesChangeCallback st r changes orcs).1.nodes.find?
          (fun n => n.id = sn.id) = some a2 ∧
        (sn.type = JVal.str "analysis" →
          JObj.get a2.data "childId" = JVal.jsUndefined) ∧
        (sn.type = JVal.str "conditional" → normHandle e.sourceHandle = some "true" →
          JObj.get a2.data "trueChildId" = JVal.jsUndefined) ∧
        (sn.type = JVal.str "conditional" → normHandle e.sourceHandle = some "false" →
          JObj.get a2.data "falseChildId" = JVal.jsUndefined)) := by
  have hedges : (onEdgesChangeCallback st r changes orcs).1.edges =
      applyEdgeChanges changes st.edges := by
    unfold onEdgesChangeCallback
    rw [edgeRemoveLoop_edges]
  refine ⟨hedges, ?_, ?_⟩
  · intro eid hmem x hx
    rw [hedges] at hx
    simp only [applyEdgeChanges] at hx
    have hp := (List.mem_filter.mp hx).2
    intro hxe
    rw [Bool.not_eq_true', List.any_eq_false] at hp
    have := hp (.remove eid) hmem
    rw [hxe] at this
    simp at this
  · intro eid e sn tn hmem hfe hfs hft
    have hsnmem : sn ∈ st.nodes := List.mem_of_find?_eq_some hfs
    have hfsn : ∃ a, st.nodes.find? (fun n => n.id = sn.id) = some a := by
      cases hq : st.nodes.find? (fun n => n.id = sn.id) with
      | none =>
        rw [List.find?_eq_none] at hq
        exact absurd (by simp : decide (sn.id = sn.id) = true)
          (by simpa using hq sn hsnmem)
      | some a => exact ⟨a, rfl⟩
    rcases hfsn with ⟨a, hfsn⟩
    rcases edgeRemoveLoop_find_some st.nodes st.edges changes orcs
        {st with edges := applyEdgeChanges changes st.edges} r sn.id a hfsn
      with ⟨a2, hf2⟩
    refine ⟨a2, hf2, ?_⟩
    exact edgeRemoveLoop_clears st.nodes st.edges changes orcs
      {st with edges := applyEdgeChanges changes st.edges} r eid e sn tn
      hmem hfe hfs hft a2 hf2

/-- Fixture: a `conditional` node whose `trueChildId` references `E`. -/
def exCondDE : FlowNode :=
  { id := "D", position := ⟨20, 20⟩, type := JVal.str "conditional",
    data := [("label", JVal.str "D"), ("type", JVal.str "conditional"),
      ("trueChildId", JVal.str "E")] }

/-- Fixture: the `true`-handle edge from `D` to `E` used by the C4 witness. -/
def exEdgeDE : FlowEdge :=
  { id := "e7", source := "D", target := "E", sourceHandle := some "true" }

/-- Fixture: a graph with an analysis edge `e1` (A→B) and a conditional
`true`-handle edge `e7` (D→E). -/
def exStateC4 : GraphState :=
  { nodes := [exAnalysisAB, exCondDE, exPromptB, exPromptE],
    edges := [exEdgeAB, exEdgeDE], selected := none }

/-- Fixture: a remote store matching `exStateC4`. -/
def exRemoteC4 : Remote :=
  { nodes := [⟨"A", "g1", "A", 0, 0,
        [("type", JVal.str "analysis"), ("childId", JVal.str "B")]⟩,
      ⟨"D", "g1", "D", 20, 20,
        [("type", JVal.str "conditional"), ("trueChildId", JVal.str "E")]⟩,
      ⟨"B", "g1", "B", 10, 10, [("type", JVal.str "prompt"), ("prompt", JVal.str "")]⟩,
      ⟨"E", "g1", "E", 30, 30, [("type", JVal.str "prompt"), ("prompt", JVal.str "")]⟩],
    edges := [⟨"e1", "A", "B"⟩, ⟨"e7", "D", "E"⟩] }

/-- Concrete instance of the amended C4 theorem: both edges are removed in
one callback run with every remote delete failing; the edges still leave the
local list, `childId` is cleared on the analysis source `A`, and
`trueChildId` is cleared on the conditional source `D`. -/
theorem C4_remove_clears_regardless_witness :
    (EdgeChange.remove "e1" ∈ ([.remove "e1", .remove "e7"] : List EdgeChange) ∧
      exStateC4.edges.find? (fun x => x.id = ("e1" : String)) = some exEdgeAB ∧
      exStateC4.nodes.find? (fun n => n.id = exEdgeAB.source) = some exAnalysisAB ∧
      exStateC4.nodes.find? (fun n => n.id = exEdgeAB.target) = some exPromptB ∧
      EdgeChange.remove "e7" ∈ ([.remove "e1", .remove "e7"] : List EdgeChange) ∧
      exStateC4.edges.find? (fun x => x.id = ("e7" : String)) = some exEdgeDE ∧
      exStateC4.nodes.find? (fun n => n.id = exEdgeDE.source) = some exCondDE ∧
      exStateC4.nodes.find? (fun n => n.id = exEdgeDE.target) = some exPromptE) ∧
    ((∀ x ∈ (onEdgesChangeCallback exStateC4 exRemoteC4 [.remove "e1", .remove "e7"]
        [⟨false, false, false⟩, ⟨false, false, false⟩]).1.edges, ¬ x.id = "e1") ∧
     (∃ a2, (onEdgesChangeCallback exStateC4 exRemoteC4 [.remove "e1", .remove "e7"]
          [⟨false, false, false⟩, ⟨false, false, false⟩]).1.nodes.find?
            (fun n => n.id = exAnalysisAB.id) = some a2 ∧
        (exAnalysisAB.type = JVal.str "analysis" →
          JObj.get a2.data "childId" = JVal.jsUndefined) ∧
        (exAnalysisAB.type = JVal.str "conditional" →
          normHandle exEdgeAB.sourceHandle = some "true" →
          JObj.get a2.data "trueChildId" = JVal.jsUndefined) ∧
        (exAnalysisAB.type = JVal.str "conditional" →
          normHandle exEdgeAB.sourceHandle = some "false" →
          JObj.get a2.data "falseChildId" = JVal.jsUndefined)) ∧
     (∃ a2, (onEdgesChangeCallback exStateC4 exRemoteC4 [.remove "e1", .remove "e7"]
          [⟨false, false, false⟩, ⟨false, false, false⟩]).1.nodes.find?
            (fun n => n.id = exCondDE.id) = some a2 ∧
        (exCondDE.type = JVal.str "analysis" →
          JObj.get a2.data "childId" = JVal.jsUndefined) ∧
        (exCondDE.type = JVal.str "conditional" →
          normHandle exEdgeDE.sourceHandle = some "true" →
          JObj.get a2.data "trueChildId" = JVal.jsUndefined) ∧
        (exCondDE.type = JVal.str "conditional" →
          normHandle exEdgeDE.sourceHandle = some "false" →
          JObj.get a2.data "falseChildId" = JVal.jsUndefined))) :=
  ⟨⟨by decide, by decide, by decide, by decide, by decide, by decide, by decide, by decide⟩,
    (C4_remove_clears_regardless exStateC4 exRemoteC4 [.remove "e1", .remove "e7"]
        [⟨false, false, false⟩, ⟨false, false, false⟩]).2.1 "e1" (by decide),
    (C4_remove_clears_regardless exStateC4 exRemoteC4 [.remove "e1", .remove "e7"]
        [⟨false, false, false⟩, ⟨false, false, false⟩]).2.2 "e1" exEdgeAB exAnalysisAB
      exPromptB (by decide) (by decide) (by decide) (by decide),
    (C4_remove_clears_regardless exStateC4 exRemoteC4 [.remove "e1", .remove "e7"]
        [⟨false, false, false⟩, ⟨false, false, false⟩]).2.2 "e7" exEdgeDE exCondDE
      exPromptE (by decide) (by decide) (by decide) (by decide)⟩

/-- C9 (counterexample to the claim as stated): a stored node whose payload
type is the unrecognized non-empty string `"custom"` is reconstructed with
type `"custom"`, not defaulted to `prompt`. -/
theorem C9_unrecognized_type_not_defaulted :
    (fetchFlowNodes [⟨"X", "g1", "X", 0, 0, [("type", JVal.str "custom")]⟩]).map
      (fun n => n.type) = [JVal.str "custom"] ∧
    ¬ (fetchFlowNode ⟨"X", "g1", "X", 0, 0, [("type", JVal.str "custom")]⟩).type =
      JVal.str "prompt" := by
  decide

/-- C9 (amended): during graph load the reconstructed node's type is the
stored payload type whenever that value is truthy — recognized or not — and
defaults to `prompt` exactly when the stored type is absent or falsy. -/
theorem C9_fetch_type_default_is_truthiness (row : RemoteNodeRow) :
    (fetchFlowNode row).type =
      (if (JObj.get row.data "type").truthy then JObj.get row.data "type"
       else JVal.str "prompt") := by
  rfl

/-- C10: when the fetch and the update of `updateNodeData` both succeed (the
row being present remotely), the persisted payload equals the fetched remote
payload overridden exactly on the keys present in `newData`: every stored key
not mentioned in `newData` keeps its prior value and every mentioned key
takes its new value; the call reports success. -/
theorem C10_updateNodeData_merge_frame (st : GraphState) (r : Remote) (nodeId : String)
    (newData : JObj) (row : RemoteNodeRow)
    (hrow : r.nodes.find? (fun n => n.id = nodeId) = some row) :
    (updateNodeData st r nodeId newData true true).2.2 = true ∧
    ∃ row2, (updateNodeData st r nodeId newData true true).2.1.nodes.find?
        (fun n => n.id = nodeId) = some row2 ∧
      (∀ k, JObj.hasKey newData k = false → JObj.get row2.data k = JObj.get row.data k) ∧
      (∀ k, JObj.hasKey newData k = true → JObj.get row2.data k = JObj.get newData k) := by
  have hscrut : (if (true : Bool) = true then r.nodes.find? (fun n => n.id = nodeId)
      else none) = some row := by
    rw [if_pos rfl, hrow]
  unfold updateNodeData
  rw [hscrut]
  simp only [if_pos rfl]
  have hrowid : row.id = nodeId := by simpa using List.find?_some hrow
  constructor
  · rfl
  · have hfind : (r.nodes.map (fun n =>
        if n.id = nodeId then {n with data := JObj.merge row.data newData} else n)).find?
        (fun n => n.id = nodeId) =
        some {row with data := JObj.merge row.data newData} := by
      rw [find_map_eq (fun n =>
          if n.id = nodeId then {n with data := JObj.merge row.data newData} else n)
        (fun n => n.id = nodeId) r.nodes
        (by intro n; by_cases hn : n.id = nodeId <;> simp [hn]), hrow]
      simp only [Option.map_some']
      rw [if_pos hrowid]
    refine ⟨_, hfind, ?_, ?_⟩
    · intro k hk
      show JObj.get (JObj.merge row.data newData) k = JObj.get row.data k
      rw [JObj.get_merge, hk]
      simp
    · intro k hk
      show JObj.get (JObj.merge row.data newData) k = JObj.get newData k
      rw [JObj.get_merge, hk]
      simp

/-- Concrete instance of the C10 theorem: a partial update of `childId` on
node `A` keeps the unrelated stored keys. -/
theorem C10_updateNodeData_merge_frame_witness :
    (exRemoteAB.nodes.find? (fun n => n.id = ("A" : String)) =
      some ⟨"A", "g1", "A", 0, 0,
        [("type", JVal.str "analysis"), ("childId", JVal.str "B")]⟩) ∧
    ((updateNodeData exStateAB exRemoteAB "A" [("childId", JVal.str "C")] true true).2.2 =
        true ∧
      ∃ row2, (updateNodeData exStateAB exRemoteAB "A" [("childId", JVal.str "C")] true
          true).2.1.nodes.find? (fun n => n.id = ("A" : String)) = some row2 ∧
        (∀ k, JObj.hasKey [("childId", JVal.str "C")] k = false →
          JObj.get row2.data k = JObj.get [("type", JVal.str "analysis"),
            ("childId", JVal.str "B")] k) ∧
        (∀ k, JObj.hasKey [("childId", JVal.str "C")] k = true →
          JObj.get row2.data k = JObj.get [("childId", JVal.str "C")] k)) :=
  ⟨by decide, C10_updateNodeData_merge_frame exStateAB exRemoteAB "A"
    [("childId", JVal.str "C")] ⟨"A", "g1", "A", 0, 0,
      [("type", JVal.str "analysis"), ("childId", JVal.str "B")]⟩ (by decide)⟩

/-- Time of the last event of a stream, `t0` when the stream is empty. -/
def lastTime (t0 : Nat) (evs : List (Nat × List NodePosChange)) : Nat :=
  evs.foldl (fun _ e => e.1) t0

/-- Each event arrives strictly less than 500 ms after the previous one
(the first one strictly less than 500 ms after `t0`). -/
def closeSpaced : Nat → List (Nat × List NodePosChange) → Bool
  | _, [] => true
  | t0, (t, _) :: r => decide (t < t0 + 500) && closeSpaced t r

theorem runPosChanges_aux (evs : List (Nat × List NodePosChange)) :
    ∀ (t0 : Nat) (s : DebounceState),
    s.timer = some (t0 + 500, s.nodes) →
    closeSpaced t0 evs = true →
    (∀ ev ∈ evs, ev.2 ≠ []) →
    (runPosChanges s evs).writes = s.writes ∧
    (runPosChanges s evs).nodes =
      evs.foldl (fun acc e => applyNodeChanges e.2 acc) s.nodes ∧
    (runPosChanges s evs).timer =
      some (lastTime t0 evs + 500, (runPosChanges s evs).nodes) := by
  induction evs with
  | nil =>
    intro t0 s ht _ _
    exact ⟨rfl, rfl, ht⟩
  | cons ev evs ih =>
    intro t0 s ht hcs hne
    rcases ev with ⟨t, cs⟩
    unfold closeSpaced at hcs
    rw [Bool.and_eq_true] at hcs
    have htlt : t < t0 + 500 := of_decide_eq_true hcs.1
    have hcsne : cs.isEmpty = false := by
      have := hne (t, cs) (List.mem_cons_self _ _)
      simpa [List.isEmpty_iff] using this
    have hstep : posChangeStep s (t, cs) =
        DebounceState.mk (applyNodeChanges cs s.nodes)
          (some (t + 500, applyNodeChanges cs s.nodes)) s.writes := by
      unfold posChangeStep fireIfDue
      rw [ht]
      simp only []
      rw [if_neg (by omega : ¬ (t0 + 500 ≤ t))]
      simp [hcsne]
    have hrun : runPosChanges s ((t, cs) :: evs) =
        runPosChanges (DebounceState.mk (applyNodeChanges cs s.nodes)
          (some (t + 500, applyNodeChanges cs s.nodes)) s.writes) evs := by
      unfold runPosChanges
      rw [List.foldl_cons, hstep]
    rcases ih t (DebounceState.mk (applyNodeChanges cs s.nodes)
        (some (t + 500, applyNodeChanges cs s.nodes)) s.writes) rfl hcs.2
        (fun e2 he2 => hne e2 (List.mem_cons_of_mem _ he2)) with ⟨hw, hn, htm⟩
    refine ⟨?_, ?_, ?_⟩
    · rw [hrun, hw]
    · rw [hrun, hn, List.foldl_cons]
    · rw [hrun, htm, ← hrun]
      rfl

/-- C7: for every nonempty sequence of position-change events in which each
event follows its predecessor by strictly less than 500 ms, the in-memory
node list always equals all changes applied in order (each change is applied
immediately), no position batch is persisted while events keep arriving, and
once the clock reaches 500 ms past the last event exactly one batched write
fires — at `lastEvent + 500` — persisting the node positions of the most
recent event. -/
theorem C7_debounce_single_final_batch (ns : List FlowNode) (t0 : Nat)
    (cs0 : List NodePosChange) (rest : List (Nat × List NodePosChange)) (T : Nat)
    (hcs : closeSpaced t0 rest = true)
    (hne0 : cs0 ≠ []) (hne : ∀ ev ∈ rest, ev.2 ≠ [])
    (hT : lastTime t0 rest + 500 ≤ T) :
    (runPosChanges ⟨ns, none, []⟩ ((t0, cs0) :: rest)).nodes =
      ((t0, cs0) :: rest).foldl (fun acc e => applyNodeChanges e.2 acc) ns ∧
    (runPosChanges ⟨ns, none, []⟩ ((t0, cs0) :: rest)).writes = [] ∧
    (flushAt (runPosChanges ⟨ns, none, []⟩ ((t0, cs0) :: rest)) T).writes =
      [(lastTime t0 rest + 500,
        ((t0, cs0) :: rest).foldl (fun acc e => applyNodeChanges e.2 acc) ns)] := by
  have hcs0e : cs0.isEmpty = false := by simpa [List.isEmpty_iff] using hne0
  have hstep0 : posChangeStep ⟨ns, none, []⟩ (t0, cs0) =
      DebounceState.mk (applyNodeChanges cs0 ns)
        (some (t0 + 500, applyNodeChanges cs0 ns)) [] := by
    unfold posChangeStep fireIfDue
    simp [hcs0e]
  have hrun : runPosChanges ⟨ns, none, []⟩ ((t0, cs0) :: rest) =
      runPosChanges (DebounceState.mk (applyNodeChanges cs0 ns)
        (some (t0 + 500, applyNodeChanges cs0 ns)) []) rest := by
    unfold runPosChanges
    rw [List.foldl_cons, hstep0]
  rcases runPosChanges_aux rest t0 (DebounceState.mk (applyNodeChanges cs0 ns)
      (some (t0 + 500, applyNodeChanges cs0 ns)) []) rfl hcs hne with ⟨hw, hn, htm⟩
  have hnodes : (runPosChanges ⟨ns, none, []⟩ ((t0, cs0) :: rest)).nodes =
      ((t0, cs0) :: rest).foldl (fun acc e => applyNodeChanges e.2 acc) ns := by
    rw [hrun, hn, List.foldl_cons]
  refine ⟨hnodes, ?_, ?_⟩
  · rw [hrun, hw]
  · unfold flushAt fireIfDue
    rw [hrun, htm, ← hrun, hnodes]
    simp only []
    rw [if_pos hT]
    rw [hrun, hw]
    rfl

/-- Concrete instance of the C7 theorem: two drag events 100 ms apart;
flushing at time 700 yields exactly one persisted batch, at time 600, with
the final position. -/
theorem C7_debounce_single_final_batch_witness :
    (closeSpaced 0 [(100, [⟨"A", ⟨9, 9⟩⟩])] = true ∧
      ([⟨"A", ⟨5, 5⟩⟩] : List NodePosChange) ≠ [] ∧
      (∀ ev ∈ ([(100, [⟨"A", ⟨9, 9⟩⟩])] : List (Nat × List NodePosChange)), ev.2 ≠ []) ∧
      lastTime 0 [(100, [⟨"A", ⟨9, 9⟩⟩])] + 500 ≤ 700) ∧
    ((runPosChanges ⟨[exAnalysisA], none, []⟩
        ((0, [⟨"A", ⟨5, 5⟩⟩]) :: [(100, [⟨"A", ⟨9, 9⟩⟩])])).nodes =
      ((0, [⟨"A", ⟨5, 5⟩⟩]) :: [(100, [⟨"A", ⟨9, 9⟩⟩])]).foldl
        (fun acc e => applyNodeChanges e.2 acc) [exAnalysisA] ∧
     (runPosChanges ⟨[exAnalysisA], none, []⟩
        ((0, [⟨"A", ⟨5, 5⟩⟩]) :: [(100, [⟨"A", ⟨9, 9⟩⟩])])).writes = [] ∧
     (flushAt (runPosChanges ⟨[exAnalysisA], none, []⟩
        ((0, [⟨"A", ⟨5, 5⟩⟩]) :: [(100, [⟨"A", ⟨9, 9⟩⟩])])) 700).writes =
      [(lastTime 0 [(100, [⟨"A", ⟨9, 9⟩⟩])] + 500,
        ((0, [⟨"A", ⟨5, 5⟩⟩]) :: [(100, [⟨"A", ⟨9, 9⟩⟩])]).foldl
          (fun acc e => applyNodeChanges e.2 acc) [exAnalysisA])]) :=
  ⟨⟨by decide, by decide, by decide, by decide⟩,
    C7_debounce_single_final_batch [exAnalysisA] 0 [⟨"A", ⟨5, 5⟩⟩]
      [(100, [⟨"A", ⟨9, 9⟩⟩])] 700 (by decide) (by decide) (by decide) (by decide)⟩
